import Mathlib

/-!
Verification development for the jlabel workspace (crates jlabel and
jlabel-question): a shallow embedding, in Lean, of the full-context-label
parser and serializer (crates/jlabel/src/parser.rs, serializer.rs,
fullcontext_label.rs) and of the question parsing and matching engine
(crates/jlabel-question/src/lib.rs, position.rs, parse_position.rs,
fallback/noop.rs), together with theorems settling the specification
claims about them.

Modelling conventions:
- Rust strings are modelled as `List Char`, one `Char` per byte; all
  delimiters and all canonical label text are ASCII, where bytes and
  characters coincide.
- Rust `u8` and `i8` values are modelled as `Nat` and `Int`; parsing
  enforces the machine bounds exactly as `FromStr` does, and arithmetic
  that can overflow is wrapped explicitly modulo 2^8 (release-profile
  semantics).
- Fallible Rust functions returning `Result` are modelled with `Except`;
  functions returning `Option` with `Option`.
-/

namespace JLabel

/-- Strings, one entry per byte (ASCII throughout). -/
abbrev Str := List Char

/-- The absent-field sentinel token. -/
def xx : Str := ['x', 'x']

/-- Value of one decimal digit character. -/
def digitVal (c : Char) : Nat := c.toNat - 48

/-- Value of a string of decimal digits, most significant first. -/
def digitsVal (cs : Str) : Nat := cs.foldl (fun a c => 10 * a + digitVal c) 0

/-- Parse a nonempty all-digit string whose value is at most `bound`
(the accumulation-overflow check of Rust `from_str_radix`). -/
def parseBoundedNat (cs : Str) (bound : Nat) : Option Nat :=
  if cs ≠ [] ∧ cs.all Char.isDigit ∧ digitsVal cs ≤ bound then some (digitsVal cs) else none

/-- Model of Rust `u8::from_str`: optional leading plus sign, then a
nonempty digit string that fits in eight bits. -/
def parseU8 (cs : Str) : Option Nat :=
  if cs.head? = some '+' then parseBoundedNat cs.tail 255 else parseBoundedNat cs 255

/-- Model of Rust `i8::from_str`: optional sign, then a nonempty digit
string; the value must lie in -128..=127. -/
def parseI8 (cs : Str) : Option Int :=
  if cs.head? = some '-' then (parseBoundedNat cs.tail 128).map (fun n => -(n : Int))
  else if cs.head? = some '+' then (parseBoundedNat cs.tail 127).map (fun n => (n : Int))
  else (parseBoundedNat cs 127).map (fun n => (n : Int))

/-- Decimal digit character for a value below ten. -/
def digitChar (n : Nat) : Char := Char.ofNat (48 + n)

/-- Accumulator loop of the decimal formatter. -/
def natReprAux : Nat → Str → Str
  | n, acc =>
    if h : n < 10 then digitChar n :: acc
    else natReprAux (n / 10) (digitChar (n % 10) :: acc)
  decreasing_by exact Nat.div_lt_self (Nat.lt_of_lt_of_le (by norm_num) (Nat.le_of_not_lt h)) (by norm_num)

/-- Decimal representation of a natural number (Rust `Display` for `u8`). -/
def natRepr (n : Nat) : Str := natReprAux n []

/-- Decimal representation of an integer (Rust `Display` for `i8`). -/
def intRepr (i : Int) : Str := if i < 0 then '-' :: natRepr (-i).toNat else natRepr i.toNat

/-- Zero-padded two-column decimal representation (Rust format `{:02}`). -/
def d02Repr (n : Nat) : Str := if n < 10 then '0' :: natRepr n else natRepr n

/-- Model of `str::find` followed by splitting: returns the text before the
first occurrence of `sep` and the text after it, or `none` when `sep` does
not occur (the `until` tokenizer step of `LabelTokenizer`). -/
def splitOnce (sep : Str) : Str → Option (Str × Str)
  | [] => if sep.isPrefixOf ([] : Str) then some ([], []) else none
  | c :: rest =>
    if sep.isPrefixOf (c :: rest) then some ([], (c :: rest).drop sep.length)
    else (splitOnce sep rest).map (fun pr => (c :: pr.1, pr.2))

/-- No occurrence of `sep` starts strictly inside `tok` when `sep` is
appended after it. -/
def NoEarlyOccur (sep tok : Str) : Prop :=
  ∀ i < tok.length, ¬ sep.isPrefixOf ((tok ++ sep).drop i)

theorem isPrefixOf_append_of_le {p l : Str} (r : Str) (h : p.length ≤ l.length) :
    p.isPrefixOf (l ++ r) = p.isPrefixOf l := by
  have ht : (l ++ r).take p.length = l.take p.length := List.take_append_of_le_length h
  rw [Bool.eq_iff_iff]
  simp only [List.isPrefixOf_iff_prefix, List.prefix_iff_eq_take, ht]

theorem splitOnce_of_noEarlyOccur {sep tok : Str} (rest : Str)
    (h : NoEarlyOccur sep tok) :
    splitOnce sep (tok ++ sep ++ rest) = some (tok, rest) := by
  induction tok with
  | nil =>
    have hp : sep.isPrefixOf (sep ++ rest) = true :=
      List.isPrefixOf_iff_prefix.mpr (List.prefix_append sep rest)
    cases hsr : sep ++ rest with
    | nil =>
      have hsep : sep = [] := by cases sep <;> simp_all
      have hrest : rest = [] := by subst hsep; simpa using hsr
      simp [splitOnce, hsep, hrest]
    | cons c cs =>
      rw [hsr] at hp
      simp only [List.nil_append, hsr, splitOnce, hp, if_true]
      rw [← hsr]
      simp [List.drop_left]
  | cons c tok ih =>
    have ihh : NoEarlyOccur sep tok := by
      intro i hi
      have := h (i + 1) (by simpa using Nat.succ_lt_succ hi)
      simpa using this
    have h0 : sep.isPrefixOf (c :: (tok ++ sep ++ rest)) = false := by
      rw [Bool.eq_false_iff]
      intro htrue
      have hne := h 0 (by simp)
      apply hne
      simp only [List.drop_zero]
      have heq : (c :: (tok ++ sep ++ rest)) = (c :: (tok ++ sep)) ++ rest := by simp
      rw [heq, isPrefixOf_append_of_le rest (by simp; omega)] at htrue
      simpa using htrue
    have hmain : splitOnce sep (c :: (tok ++ sep ++ rest)) = some (c :: tok, rest) := by
      rw [splitOnce, h0]
      simp only [Bool.false_eq_true, if_false]
      rw [ih ihh]
      rfl
    simpa using hmain

theorem splitOnce_spec {sep l tok rest : Str} (h : splitOnce sep l = some (tok, rest)) :
    l = tok ++ sep ++ rest ∧ NoEarlyOccur sep tok := by
  induction l generalizing tok rest with
  | nil =>
    rw [splitOnce] at h
    by_cases hp : sep.isPrefixOf ([] : Str)
    · rw [if_pos hp] at h
      have hsep : sep = [] := by
        have := List.isPrefixOf_iff_prefix.mp hp
        simpa using this.length_le
      injection h with h
      injection h with h1 h2
      subst h2
      constructor
      · simp [hsep, ← h1]
      · intro i hi; rw [← h1] at hi; simp at hi
    · rw [if_neg (by simpa using hp)] at h
      exact absurd h (by simp)
  | cons c l ih =>
    rw [splitOnce] at h
    by_cases hp : sep.isPrefixOf (c :: l)
    · rw [if_pos hp] at h
      injection h with h
      injection h with h1 h2
      subst h2
      have hpre := List.isPrefixOf_iff_prefix.mp hp
      constructor
      · have htake := List.prefix_iff_eq_take.mp hpre
        conv_lhs => rw [← List.take_append_drop sep.length (c :: l)]
        rw [← htake, ← h1]
        simp
      · intro i hi; rw [← h1] at hi; simp at hi
    · rw [if_neg (by simpa using hp)] at h
      cases hs : splitOnce sep l with
      | none => rw [hs] at h; exact absurd h (by simp)
      | some pr =>
        obtain ⟨pre, post⟩ := pr
        rw [hs] at h
        injection h with h
        injection h with h1 h2
        obtain ⟨hl, hno⟩ := ih hs
        subst h2
        constructor
        · rw [← h1, hl]; simp
        · intro i hi
          rw [← h1] at hi
          match i with
          | 0 =>
            intro hcon
            rw [← h1] at hcon
            simp only [List.drop_zero] at hcon
            apply hp
            rw [hl]
            have hc2 : c :: (pre ++ sep ++ post) = (c :: pre ++ sep) ++ post := by simp
            rw [hc2, isPrefixOf_append_of_le post (by simp; omega)]
            exact hcon
          | Nat.succ j =>
            simp only [List.length_cons, Nat.succ_lt_succ_iff] at hi
            have := hno j hi
            rw [← h1]
            simpa using this

theorem splitOnce_stable {sep l tok rest : Str} (h : splitOnce sep l = some (tok, rest))
    (r : Str) : splitOnce sep (tok ++ sep ++ r) = some (tok, r) :=
  splitOnce_of_noEarlyOccur r (splitOnce_spec h).2

theorem noEarlyOccur_of_disjoint {sep tok : Str} (hsep : sep ≠ [])
    (hdisj : ∀ c ∈ tok, c ∉ sep) : NoEarlyOccur sep tok := by
  intro i hi hcon
  cases sep with
  | nil => exact hsep rfl
  | cons s stl =>
    have hpre := List.isPrefixOf_iff_prefix.mp hcon
    have hdrop : (tok ++ (s :: stl)).drop i = tok.drop i ++ (s :: stl) :=
      List.drop_append_of_le_length (Nat.le_of_lt hi)
    rw [hdrop] at hpre
    cases htd : tok.drop i with
    | nil =>
      have hlen : tok.length - i = 0 := by simpa using congrArg List.length htd
      omega
    | cons d dtl =>
      rw [htd] at hpre
      have hd : s = d := by
        have := List.cons_prefix_cons.mp (by simpa using hpre)
        exact this.1
      have hmem : d ∈ tok := List.drop_subset i tok (htd ▸ List.mem_cons_self d dtl)
      exact hdisj d hmem (hd ▸ List.mem_cons_self s stl)

theorem splitOnce_of_disjoint {sep tok : Str} (hsep : sep ≠ [])
    (hdisj : ∀ c ∈ tok, c ∉ sep) (r : Str) :
    splitOnce sep (tok ++ sep ++ r) = some (tok, r) :=
  splitOnce_of_noEarlyOccur r (noEarlyOccur_of_disjoint hsep hdisj)

theorem digitChar_isDigit {k : Nat} (h : k < 10) : (digitChar k).isDigit = true := by
  interval_cases k <;> decide

theorem digitVal_digitChar {k : Nat} (h : k < 10) : digitVal (digitChar k) = k := by
  interval_cases k <;> decide

theorem natReprAux_append (n : Nat) (acc : Str) :
    natReprAux n acc = natReprAux n [] ++ acc := by
  induction n using Nat.strong_induction_on generalizing acc with
  | _ n ih =>
    by_cases h : n < 10
    · rw [natReprAux, dif_pos h]
      conv_rhs => rw [natReprAux, dif_pos h]
      rfl
    · have hlt : n / 10 < n := Nat.div_lt_self (by omega) (by norm_num)
      rw [natReprAux, dif_neg h, ih (n / 10) hlt (digitChar (n % 10) :: acc)]
      conv_rhs => rw [natReprAux, dif_neg h]
      rw [ih (n / 10) hlt [digitChar (n % 10)]]
      simp

theorem natRepr_eq (n : Nat) :
    natRepr n = if n < 10 then [digitChar n] else natRepr (n / 10) ++ [digitChar (n % 10)] := by
  rw [natRepr, natReprAux]
  by_cases h : n < 10
  · simp [h]
  · rw [dif_neg h, if_neg h, natReprAux_append]
    rfl

theorem natRepr_digits (n : Nat) : ∀ c ∈ natRepr n, c.isDigit = true := by
  induction n using Nat.strong_induction_on with
  | _ n ih =>
    rw [natRepr_eq]
    by_cases h : n < 10
    · simp only [if_pos h, List.mem_singleton]
      intro c hc
      exact hc ▸ digitChar_isDigit h
    · simp only [if_neg h, List.mem_append, List.mem_singleton]
      intro c hc
      cases hc with
      | inl hc => exact ih (n / 10) (Nat.div_lt_self (by omega) (by norm_num)) c hc
      | inr hc => exact hc ▸ digitChar_isDigit (Nat.mod_lt n (by norm_num))

theorem natRepr_ne_nil (n : Nat) : natRepr n ≠ [] := by
  rw [natRepr_eq]
  by_cases h : n < 10 <;> simp [h]

theorem digitsVal_natRepr (n : Nat) : digitsVal (natRepr n) = n := by
  induction n using Nat.strong_induction_on with
  | _ n ih =>
    rw [natRepr_eq]
    by_cases h : n < 10
    · simp only [if_pos h, digitsVal, List.foldl_cons, List.foldl_nil]
      rw [digitVal_digitChar h]
      omega
    · simp only [if_neg h, digitsVal, List.foldl_append, List.foldl_cons, List.foldl_nil]
      have hv := ih (n / 10) (Nat.div_lt_self (by omega) (by norm_num))
      rw [digitsVal] at hv
      rw [hv, digitVal_digitChar (Nat.mod_lt n (by norm_num))]
      omega

theorem digits_ne_xx {cs : Str} (h : ∀ c ∈ cs, c.isDigit = true) : cs ≠ xx := by
  intro hc
  have : ('x' : Char).isDigit = true := h 'x' (by rw [hc]; simp [xx])
  simp at this

theorem natRepr_head_digit (n : Nat) :
    ∃ c cs, natRepr n = c :: cs ∧ c.isDigit = true := by
  cases hr : natRepr n with
  | nil => exact absurd hr (natRepr_ne_nil n)
  | cons c cs => exact ⟨c, cs, rfl, natRepr_digits n c (hr ▸ List.mem_cons_self c cs)⟩

theorem parseBoundedNat_natRepr {n bound : Nat} (h : n ≤ bound) :
    parseBoundedNat (natRepr n) bound = some n := by
  rw [parseBoundedNat, if_pos, digitsVal_natRepr]
  refine ⟨natRepr_ne_nil n, ?_, by rw [digitsVal_natRepr]; exact h⟩
  rw [List.all_eq_true]
  exact natRepr_digits n

theorem parseU8_natRepr {n : Nat} (h : n ≤ 255) : parseU8 (natRepr n) = some n := by
  obtain ⟨c, cs, hr, hd⟩ := natRepr_head_digit n
  rw [parseU8, if_neg, parseBoundedNat_natRepr h]
  rw [hr]
  intro hc
  have hceq : c = '+' := by simpa using hc
  exact absurd (hceq ▸ hd) (by decide)

theorem parseBoundedNat_le {cs : Str} {b n : Nat} (h : parseBoundedNat cs b = some n) :
    n ≤ b := by
  rw [parseBoundedNat] at h
  by_cases hc : cs ≠ [] ∧ cs.all Char.isDigit ∧ digitsVal cs ≤ b
  · rw [if_pos hc] at h
    injection h with h
    omega
  · rw [if_neg hc] at h
    exact absurd h (by simp)

theorem parseU8_le {cs : Str} {n : Nat} (h : parseU8 cs = some n) : n ≤ 255 := by
  rw [parseU8] at h
  by_cases hc : cs.head? = some '+'
  · rw [if_pos hc] at h; exact parseBoundedNat_le h
  · rw [if_neg hc] at h; exact parseBoundedNat_le h

theorem parseI8_range {cs : Str} {i : Int} (h : parseI8 cs = some i) :
    -128 ≤ i ∧ i ≤ 127 := by
  rw [parseI8] at h
  by_cases hm : cs.head? = some '-'
  · rw [if_pos hm] at h
    cases hb : parseBoundedNat cs.tail 128 with
    | none => rw [hb] at h; exact absurd h (by simp)
    | some n =>
      rw [hb] at h
      have := parseBoundedNat_le hb
      have h2 : -(n : Int) = i := by simpa using h
      omega
  · rw [if_neg hm] at h
    by_cases hp : cs.head? = some '+'
    · rw [if_pos hp] at h
      cases hb : parseBoundedNat cs.tail 127 with
      | none => rw [hb] at h; exact absurd h (by simp)
      | some n =>
        rw [hb] at h
        have := parseBoundedNat_le hb
        have h2 : (n : Int) = i := by simpa using h
        omega
    · rw [if_neg hp] at h
      cases hb : parseBoundedNat cs 127 with
      | none => rw [hb] at h; exact absurd h (by simp)
      | some n =>
        rw [hb] at h
        have := parseBoundedNat_le hb
        have h2 : (n : Int) = i := by simpa using h
        omega

theorem parseI8_intRepr {i : Int} (hlo : -128 ≤ i) (hhi : i ≤ 127) :
    parseI8 (intRepr i) = some i := by
  rw [intRepr]
  by_cases hneg : i < 0
  · rw [if_pos hneg, parseI8, if_pos (by simp)]
    have hb : (-i).toNat ≤ 128 := by omega
    have htl : ('-' :: natRepr (-i).toNat).tail = natRepr (-i).toNat := rfl
    rw [htl, parseBoundedNat_natRepr hb]
    exact congrArg some (show -(((-i).toNat : Int)) = i by omega)
  · rw [if_neg hneg]
    obtain ⟨c, cs, hr, hd⟩ := natRepr_head_digit i.toNat
    have hnm : (natRepr i.toNat).head? ≠ some '-' := by
      rw [hr]
      intro hc
      have hceq : c = '-' := by simpa using hc
      exact absurd (hceq ▸ hd) (by decide)
    have hnp : (natRepr i.toNat).head? ≠ some '+' := by
      rw [hr]
      intro hc
      have hceq : c = '+' := by simpa using hc
      exact absurd (hceq ▸ hd) (by decide)
    rw [parseI8, if_neg hnm, if_neg hnp, parseBoundedNat_natRepr (by omega : i.toNat ≤ 127)]
    exact congrArg some (show ((i.toNat : Int)) = i by omega)

theorem intRepr_chars (i : Int) : ∀ c ∈ intRepr i, c.isDigit = true ∨ c = '-' := by
  rw [intRepr]
  by_cases hneg : i < 0
  · rw [if_pos hneg]
    intro c hc
    cases hc with
    | head => exact Or.inr rfl
    | tail _ hc => exact Or.inl (natRepr_digits _ c hc)
  · rw [if_neg hneg]
    intro c hc
    exact Or.inl (natRepr_digits _ c hc)

theorem d02Repr_digits (n : Nat) : ∀ c ∈ d02Repr n, c.isDigit = true := by
  rw [d02Repr]
  by_cases h : n < 10
  · rw [if_pos h]
    intro c hc
    cases hc with
    | head => decide
    | tail _ hc => exact natRepr_digits n c hc
  · rw [if_neg h]
    exact natRepr_digits n

theorem digitsVal_cons_zero (cs : Str) : digitsVal ('0' :: cs) = digitsVal cs := by
  rw [digitsVal, digitsVal, List.foldl_cons]
  congr 1

theorem parseU8_d02Repr {n : Nat} (h : n ≤ 255) : parseU8 (d02Repr n) = some n := by
  rw [d02Repr]
  by_cases hlt : n < 10
  · rw [if_pos hlt, parseU8, if_neg (by simp), parseBoundedNat, if_pos, digitsVal_cons_zero,
      digitsVal_natRepr]
    refine ⟨by simp, ?_, by rw [digitsVal_cons_zero, digitsVal_natRepr]; exact h⟩
    rw [List.all_eq_true]
    intro c hc
    cases hc with
    | head => decide
    | tail _ hc => exact natRepr_digits n c hc
  · rw [if_neg hlt]
    exact parseU8_natRepr h

/-- The `Phoneme` record of a full-context label; as in the source, field
`p2` holds the first serialized token and `p1` the second. -/
structure Phoneme where
  p2 : Option Str
  p1 : Option Str
  c : Option Str
  n1 : Option Str
  n2 : Option Str
  deriving DecidableEq, Repr

/-- The `A` (mora) record. -/
structure Mora where
  relative_accent_position : Int
  position_forward : Nat
  position_backward : Nat
  deriving DecidableEq, Repr

/-- The `B`/`C`/`D` (word) record. -/
structure Word where
  pos : Option Nat
  ctype : Option Nat
  cform : Option Nat
  deriving DecidableEq, Repr

/-- The `F` (current accent phrase) record. -/
structure AccentPhraseCurrent where
  mora_count : Nat
  accent_position : Nat
  is_interrogative : Bool
  accent_phrase_position_forward : Nat
  accent_phrase_position_backward : Nat
  mora_position_forward : Nat
  mora_position_backward : Nat
  deriving DecidableEq, Repr

/-- The `E`/`G` (previous/next accent phrase) record; `is_pause_insertion`
is stored with polarity inverted from the serialized text. -/
structure AccentPhrasePrevNext where
  mora_count : Nat
  accent_position : Nat
  is_interrogative : Bool
  is_pause_insertion : Option Bool
  deriving DecidableEq, Repr

/-- The `I` (current breath group) record. -/
structure BreathGroupCurrent where
  accent_phrase_count : Nat
  mora_count : Nat
  breath_group_position_forward : Nat
  breath_group_position_backward : Nat
  accent_phrase_position_forward : Nat
  accent_phrase_position_backward : Nat
  mora_position_forward : Nat
  mora_position_backward : Nat
  deriving DecidableEq, Repr

/-- The `H`/`J` (previous/next breath group) record. -/
structure BreathGroupPrevNext where
  accent_phrase_count : Nat
  mora_count : Nat
  deriving DecidableEq, Repr

/-- The `K` (utterance) record; never absent. -/
structure Utterance where
  breath_group_count : Nat
  accent_phrase_count : Nat
  mora_count : Nat
  deriving DecidableEq, Repr

/-- A full-context label. -/
structure Label where
  phoneme : Phoneme
  mora : Option Mora
  word_prev : Option Word
  word_curr : Option Word
  word_next : Option Word
  accent_phrase_prev : Option AccentPhrasePrevNext
  accent_phrase_curr : Option AccentPhraseCurrent
  accent_phrase_next : Option AccentPhrasePrevNext
  breath_group_prev : Option BreathGroupPrevNext
  breath_group_curr : Option BreathGroupCurrent
  breath_group_next : Option BreathGroupPrevNext
  utterance : Utterance
  deriving DecidableEq, Repr

/-- Block tags of the wire format. -/
def tagA : Str := ['/', 'A', ':']

def tagB : Str := ['/', 'B', ':']

def tagC : Str := ['/', 'C', ':']

def tagD : Str := ['/', 'D', ':']

def tagE : Str := ['/', 'E', ':']

def tagF : Str := ['/', 'F', ':']

def tagG : Str := ['/', 'G', ':']

def tagH : Str := ['/', 'H', ':']

def tagI : Str := ['/', 'I', ':']

def tagJ : Str := ['/', 'J', ':']

def tagK : Str := ['/', 'K', ':']

/-- Model of `LabelTokenizer::string_or_xx`. -/
def string_or_xx (cs : Str) : Option Str := if cs = xx then none else some cs

/-- Total conversion wrapper used for phoneme tokens. -/
def strConv (cs : Str) : Option (Option Str) := some (string_or_xx cs)

/-- Model of `LabelTokenizer::parse_or_xx::<u8>` (outer `none` = parse error). -/
def parse_or_xx_u8 (cs : Str) : Option (Option Nat) :=
  if cs = xx then some none else (parseU8 cs).map some

/-- Model of `LabelTokenizer::parse_or_xx::<i8>`. -/
def parse_or_xx_i8 (cs : Str) : Option (Option Int) :=
  if cs = xx then some none else (parseI8 cs).map some

/-- Model of `LabelTokenizer::parse_bool_or_xx`. -/
def parse_bool_or_xx (cs : Str) : Option (Option Bool) :=
  if cs = xx then some none
  else if cs = ['0'] then some (some false)
  else if cs = ['1'] then some (some true)
  else none

/-- Model of `LabelTokenizer::assert_xx`. -/
def assert_xx (cs : Str) : Option Unit := if cs = xx then some () else none

/-- One tokenizer step: `self.until(sep)` followed by a conversion of the
token, threading the remaining input. -/
def field {α : Type} (sep : Str) (conv : Str → Option α) (cs : Str) : Option (α × Str) :=
  match splitOnce sep cs with
  | none => none
  | some (tok, rest) =>
    match conv tok with
    | none => none
    | some v => some (v, rest)

/-- Model of `LabelTokenizer::p`: `p1^p2-p3+p4=p5/A:`; the first token is
stored in struct field `p2` and the second in `p1`, as in the source. -/
def pBlock (cs : Str) : Option (Phoneme × Str) := do
  let (t1, cs) ← field ['^'] strConv cs
  let (t2, cs) ← field ['-'] strConv cs
  let (t3, cs) ← field ['+'] strConv cs
  let (t4, cs) ← field ['='] strConv cs
  let (t5, cs) ← field tagA strConv cs
  some ({ p2 := t1, p1 := t2, c := t3, n1 := t4, n2 := t5 }, cs)

/-- Model of `LabelTokenizer::a`: `a1+a2+a3/B:`. -/
def aBlock (cs : Str) : Option (Option Mora × Str) := do
  let (a1, cs) ← field ['+'] parse_or_xx_i8 cs
  let (a2, cs) ← field ['+'] parse_or_xx_u8 cs
  let (a3, cs) ← field tagB parse_or_xx_u8 cs
  match a1, a2, a3 with
  | some a1, some a2, some a3 => some (some ⟨a1, a2, a3⟩, cs)
  | _, _, _ => some (none, cs)

/-- Shared shape of `LabelTokenizer::b`, `::c` and `::d`:
three optional category numbers; the record is absent iff all three are. -/
def wordBlock (s1 s2 s3 : Str) (cs : Str) : Option (Option Word × Str) := do
  let (b1, cs) ← field s1 parse_or_xx_u8 cs
  let (b2, cs) ← field s2 parse_or_xx_u8 cs
  let (b3, cs) ← field s3 parse_or_xx_u8 cs
  if b1 = none ∧ b2 = none ∧ b3 = none then some (none, cs)
  else some (some ⟨b1, b2, b3⟩, cs)

/-- Model of `LabelTokenizer::b`: `b1-b2_b3/C:`. -/
def bBlock : Str → Option (Option Word × Str) := wordBlock ['-'] ['_'] tagC

/-- Model of `LabelTokenizer::c`: `c1_c2+c3/D:`. -/
def cBlock : Str → Option (Option Word × Str) := wordBlock ['_'] ['+'] tagD

/-- Model of `LabelTokenizer::d`: `d1+d2_d3/E:`. -/
def dBlock : Str → Option (Option Word × Str) := wordBlock ['+'] ['_'] tagE

/-- Shared shape of `LabelTokenizer::e` and `::g`: two numbers, one
boolean, one always-`xx` slot, and the polarity-inverted pause-insertion
boolean. -/
def pnBlock (sB sD sEnd : Str) (cs : Str) : Option (Option AccentPhrasePrevNext × Str) := do
  let (e1, cs) ← field ['_'] parse_or_xx_u8 cs
  let (e2, cs) ← field sB parse_or_xx_u8 cs
  let (e3, cs) ← field ['_'] parse_bool_or_xx cs
  let (_, cs) ← field sD assert_xx cs
  let (e5, cs) ← field sEnd parse_bool_or_xx cs
  match e1, e2, e3 with
  | some e1, some e2, some e3 =>
    some (some ⟨e1, e2, e3, e5.map (fun v => !v)⟩, cs)
  | _, _, _ => some (none, cs)

/-- Model of `LabelTokenizer::e`: `e1_e2!e3_e4-e5/F:`. -/
def eBlock : Str → Option (Option AccentPhrasePrevNext × Str) := pnBlock ['!'] ['-'] tagF

/-- Model of `LabelTokenizer::g`: `g1_g2%g3_g4_g5/H:`. -/
def gBlock : Str → Option (Option AccentPhrasePrevNext × Str) := pnBlock ['%'] ['_'] tagH

/-- Model of `LabelTokenizer::f`: `f1_f2#f3_f4@f5_f6|f7_f8/G:`. -/
def fBlock (cs : Str) : Option (Option AccentPhraseCurrent × Str) := do
  let (f1, cs) ← field ['_'] parse_or_xx_u8 cs
  let (f2, cs) ← field ['#'] parse_or_xx_u8 cs
  let (f3, cs) ← field ['_'] parse_bool_or_xx cs
  let (_, cs) ← field ['@'] assert_xx cs
  let (f5, cs) ← field ['_'] parse_or_xx_u8 cs
  let (f6, cs) ← field ['|'] parse_or_xx_u8 cs
  let (f7, cs) ← field ['_'] parse_or_xx_u8 cs
  let (f8, cs) ← field tagG parse_or_xx_u8 cs
  match f1, f2, f3, f5, f6, f7, f8 with
  | some f1, some f2, some f3, some f5, some f6, some f7, some f8 =>
    some (some ⟨f1, f2, f3, f5, f6, f7, f8⟩, cs)
  | _, _, _, _, _, _, _ => some (none, cs)

/-- Shared shape of `LabelTokenizer::h` and `::j`. -/
def bgBlock (sEnd : Str) (cs : Str) : Option (Option BreathGroupPrevNext × Str) := do
  let (h1, cs) ← field ['_'] parse_or_xx_u8 cs
  let (h2, cs) ← field sEnd parse_or_xx_u8 cs
  match h1, h2 with
  | some h1, some h2 => some (some ⟨h1, h2⟩, cs)
  | _, _ => some (none, cs)

/-- Model of `LabelTokenizer::h`: `h1_h2/I:`. -/
def hBlock : Str → Option (Option BreathGroupPrevNext × Str) := bgBlock tagI

/-- Model of `LabelTokenizer::j`: `j1_j2/K:`. -/
def jBlock : Str → Option (Option BreathGroupPrevNext × Str) := bgBlock tagK

/-- Model of `LabelTokenizer::i`: `i1-i2@i3+i4&i5-i6|i7+i8/J:`. -/
def iBlock (cs : Str) : Option (Option BreathGroupCurrent × Str) := do
  let (i1, cs) ← field ['-'] parse_or_xx_u8 cs
  let (i2, cs) ← field ['@'] parse_or_xx_u8 cs
  let (i3, cs) ← field ['+'] parse_or_xx_u8 cs
  let (i4, cs) ← field ['&'] parse_or_xx_u8 cs
  let (i5, cs) ← field ['-'] parse_or_xx_u8 cs
  let (i6, cs) ← field ['|'] parse_or_xx_u8 cs
  let (i7, cs) ← field ['+'] parse_or_xx_u8 cs
  let (i8, cs) ← field tagJ parse_or_xx_u8 cs
  match i1, i2, i3, i4, i5, i6, i7, i8 with
  | some i1, some i2, some i3, some i4, some i5, some i6, some i7, some i8 =>
    some (some ⟨i1, i2, i3, i4, i5, i6, i7, i8⟩, cs)
  | _, _, _, _, _, _, _, _ => some (none, cs)

/-- Model of `LabelTokenizer::k`: `k1+k2-k3`, consuming all remaining
input; no field may be `xx`. -/
def kBlock (cs : Str) : Option Utterance := do
  let (k1, cs) ← field ['+'] parseU8 cs
  let (k2, cs) ← field ['-'] parseU8 cs
  let k3 ← parseU8 cs
  some ⟨k1, k2, k3⟩

/-- Model of `Label::from_str` (`LabelTokenizer::consume`). -/
def labelParse (cs : Str) : Option Label := do
  let (p, cs) ← pBlock cs
  let (a, cs) ← aBlock cs
  let (b, cs) ← bBlock cs
  let (c, cs) ← cBlock cs
  let (d, cs) ← dBlock cs
  let (e, cs) ← eBlock cs
  let (f, cs) ← fBlock cs
  let (g, cs) ← gBlock cs
  let (h, cs) ← hBlock cs
  let (i, cs) ← iBlock cs
  let (j, cs) ← jBlock cs
  let u ← kBlock cs
  some ⟨p, a, b, c, d, e, f, g, h, i, j, u⟩

/-- Model of `Label::from_str` on Lean strings. -/
def labelFromString (s : String) : Option Label := labelParse s.data

/-- Serializer helper `or_xx` for strings. -/
def orXxStr : Option Str → Str
  | none => xx
  | some s => s

/-- Serializer helper `or_xx`/`d01_or_xx` for numbers (column width one
never pads, so `{:01}` equals the plain decimal form). -/
def orXxU8 : Option Nat → Str
  | none => xx
  | some n => natRepr n

/-- Serializer helper `d02_or_xx` (format `{:02}`). -/
def d02OrXx : Option Nat → Str
  | none => xx
  | some n => d02Repr n

/-- Serializer helper `bool`. -/
def boolStr (b : Bool) : Str := if b then ['1'] else ['0']

/-- Serializer helper `bool_or_xx`. -/
def boolOrXx : Option Bool → Str
  | none => xx
  | some b => boolStr b

/-- Field part of `Serializer::p` (everything before the `/A:` tag). -/
def serPf (ph : Phoneme) : Str :=
  orXxStr ph.p2 ++ ['^'] ++ orXxStr ph.p1 ++ ['-'] ++ orXxStr ph.c ++ ['+'] ++
    orXxStr ph.n1 ++ ['='] ++ orXxStr ph.n2

/-- Field part of `Serializer::a`. -/
def serAf : Option Mora → Str
  | some m =>
    intRepr m.relative_accent_position ++ ['+'] ++ natRepr m.position_forward ++ ['+'] ++
      natRepr m.position_backward
  | none => xx ++ ['+'] ++ xx ++ ['+'] ++ xx

/-- Field part of `Serializer::b`/`::c`/`::d` (parameterized by the two
inner separators). -/
def serWf (s1 s2 : Str) : Option Word → Str
  | some w => d02OrXx w.pos ++ s1 ++ orXxU8 w.ctype ++ s2 ++ orXxU8 w.cform
  | none => xx ++ s1 ++ xx ++ s2 ++ xx

/-- Field part of `Serializer::e`/`::g`; the pause-insertion boolean is
written back with inverted polarity. -/
def serPNf (sB sD : Str) : Option AccentPhrasePrevNext → Str
  | some a =>
    natRepr a.mora_count ++ ['_'] ++ natRepr a.accent_position ++ sB ++
      boolStr a.is_interrogative ++ ['_'] ++ xx ++ sD ++
      boolOrXx (a.is_pause_insertion.map (fun v => !v))
  | none => xx ++ ['_'] ++ xx ++ sB ++ xx ++ ['_'] ++ xx ++ sD ++ xx

/-- Field part of `Serializer::f`. -/
def serFf : Option AccentPhraseCurrent → Str
  | some f =>
    natRepr f.mora_count ++ ['_'] ++ natRepr f.accent_position ++ ['#'] ++
      boolStr f.is_interrogative ++ ['_'] ++ xx ++ ['@'] ++
      natRepr f.accent_phrase_position_forward ++ ['_'] ++
      natRepr f.accent_phrase_position_backward ++ ['|'] ++
      natRepr f.mora_position_forward ++ ['_'] ++ natRepr f.mora_position_backward
  | none =>
    xx ++ ['_'] ++ xx ++ ['#'] ++ xx ++ ['_'] ++ xx ++ ['@'] ++ xx ++ ['_'] ++ xx ++
      ['|'] ++ xx ++ ['_'] ++ xx

/-- Field part of `Serializer::h`/`::j`. -/
def serBGf : Option BreathGroupPrevNext → Str
  | some h => natRepr h.accent_phrase_count ++ ['_'] ++ natRepr h.mora_count
  | none => xx ++ ['_'] ++ xx

/-- Field part of `Serializer::i`. -/
def serIf : Option BreathGroupCurrent → Str
  | some i =>
    natRepr i.accent_phrase_count ++ ['-'] ++ natRepr i.mora_count ++ ['@'] ++
      natRepr i.breath_group_position_forward ++ ['+'] ++
      natRepr i.breath_group_position_backward ++ ['&'] ++
      natRepr i.accent_phrase_position_forward ++ ['-'] ++
      natRepr i.accent_phrase_position_backward ++ ['|'] ++
      natRepr i.mora_position_forward ++ ['+'] ++ natRepr i.mora_position_backward
  | none =>
    xx ++ ['-'] ++ xx ++ ['@'] ++ xx ++ ['+'] ++ xx ++ ['&'] ++ xx ++ ['-'] ++ xx ++
      ['|'] ++ xx ++ ['+'] ++ xx

/-- Field part of `Serializer::k`. -/
def serKf (u : Utterance) : Str :=
  natRepr u.breath_group_count ++ ['+'] ++ natRepr u.accent_phrase_count ++ ['-'] ++
    natRepr u.mora_count

/-- Model of `Display for Label` (`Serializer::fmt`): each block writes its
leading tag followed by its fields. -/
def serLabel (L : Label) : Str :=
  serPf L.phoneme ++ tagA ++ serAf L.mora ++ tagB ++ serWf ['-'] ['_'] L.word_prev ++
    tagC ++ serWf ['_'] ['+'] L.word_curr ++ tagD ++ serWf ['+'] ['_'] L.word_next ++
    tagE ++ serPNf ['!'] ['-'] L.accent_phrase_prev ++ tagF ++ serFf L.accent_phrase_curr ++
    tagG ++ serPNf ['%'] ['_'] L.accent_phrase_next ++ tagH ++ serBGf L.breath_group_prev ++
    tagI ++ serIf L.breath_group_curr ++ tagJ ++ serBGf L.breath_group_next ++
    tagK ++ serKf L.utterance

/-- Model of `Display for Label` producing a Lean string. -/
def labelToString (L : Label) : String := String.mk (serLabel L)

theorem splitOnce_ser {sep tok : Str} {P : Char → Prop} (hsep : sep ≠ [])
    (htok : ∀ c ∈ tok, P c) (hsepP : ∀ c ∈ sep, ¬ P c) (r : Str) :
    splitOnce sep (tok ++ sep ++ r) = some (tok, r) :=
  splitOnce_of_disjoint hsep (fun c hc hs => hsepP c hs (htok c hc)) r

theorem field_eq_some {α : Type} {sep : Str} {conv : Str → Option α} {cs : Str}
    {v : α} {rest : Str} (h : field sep conv cs = some (v, rest)) :
    ∃ tok, splitOnce sep cs = some (tok, rest) ∧ conv tok = some v := by
  unfold field at h
  cases hs : splitOnce sep cs with
  | none => rw [hs] at h; exact absurd h (by simp)
  | some pr =>
    obtain ⟨tok, rest0⟩ := pr
    rw [hs] at h
    dsimp only at h
    cases hc : conv tok with
    | none => rw [hc] at h; exact absurd h (by simp)
    | some v0 =>
      rw [hc] at h
      dsimp only at h
      injection h with h
      injection h with h1 h2
      subst h1; subst h2
      exact ⟨tok, rfl, hc⟩

theorem field_ser {α : Type} {sep : Str} {conv : Str → Option α} {v : α} {ser r : Str}
    (hsplit : splitOnce sep (ser ++ sep ++ r) = some (ser, r)) (hconv : conv ser = some v) :
    field sep conv (ser ++ sep ++ r) = some (v, r) := by
  unfold field
  rw [hsplit]
  dsimp only
  rw [hconv]

/-- Character class of serialized numeric, boolean and sentinel tokens. -/
abbrev U8Char (c : Char) : Prop := c.isDigit = true ∨ c = 'x'

/-- Character class of serialized signed-number tokens. -/
abbrev I8Char (c : Char) : Prop := c.isDigit = true ∨ c = 'x' ∨ c = '-'

theorem xx_chars : ∀ c ∈ xx, U8Char c := by
  intro c hc
  have hceq : c = 'x' := by simpa [xx] using hc
  exact Or.inr hceq

theorem orXxU8_chars (v : Option Nat) : ∀ c ∈ orXxU8 v, U8Char c := by
  cases v with
  | none => exact xx_chars
  | some n => exact fun c hc => Or.inl (natRepr_digits n c hc)

theorem d02OrXx_chars (v : Option Nat) : ∀ c ∈ d02OrXx v, U8Char c := by
  cases v with
  | none => exact xx_chars
  | some n => exact fun c hc => Or.inl (d02Repr_digits n c hc)

theorem boolStr_chars (b : Bool) : ∀ c ∈ boolStr b, U8Char c := by
  cases b
  · intro c hc
    have hceq : c = '0' := by simpa [boolStr] using hc
    exact Or.inl (by rw [hceq]; decide)
  · intro c hc
    have hceq : c = '1' := by simpa [boolStr] using hc
    exact Or.inl (by rw [hceq]; decide)

theorem boolOrXx_chars (v : Option Bool) : ∀ c ∈ boolOrXx v, U8Char c := by
  cases v with
  | none => exact xx_chars
  | some b => exact boolStr_chars b

theorem orXxI8_chars (v : Option Int) : ∀ c ∈ (match v with | none => xx | some i => intRepr i), I8Char c := by
  cases v with
  | none => exact fun c hc => (xx_chars c hc).elim (fun h => Or.inl h) (fun h => Or.inr (Or.inl h))
  | some i =>
    intro c hc
    rcases intRepr_chars i c hc with h | h
    · exact Or.inl h
    · exact Or.inr (Or.inr h)

theorem orXxStr_string_or_xx (t : Str) : orXxStr (string_or_xx t) = t := by
  rw [string_or_xx]
  by_cases h : t = xx
  · rw [if_pos h, orXxStr, h]
  · rw [if_neg h, orXxStr]

theorem parse_or_xx_u8_orXx {tok : Str} {v : Option Nat}
    (h : parse_or_xx_u8 tok = some v) : parse_or_xx_u8 (orXxU8 v) = some v := by
  cases v with
  | none => rw [orXxU8, parse_or_xx_u8, if_pos rfl]
  | some n =>
    rw [parse_or_xx_u8] at h
    by_cases hx : tok = xx
    · rw [if_pos hx] at h; exact absurd h (by simp)
    · rw [if_neg hx] at h
      cases hu : parseU8 tok with
      | none => rw [hu] at h; exact absurd h (by simp)
      | some m =>
        rw [hu] at h
        have hm : m = n := by simpa using h
        subst hm
        have hle := parseU8_le hu
        rw [orXxU8, parse_or_xx_u8, if_neg (digits_ne_xx (natRepr_digits m)),
          parseU8_natRepr hle]
        rfl

theorem parse_or_xx_u8_d02 {tok : Str} {v : Option Nat}
    (h : parse_or_xx_u8 tok = some v) : parse_or_xx_u8 (d02OrXx v) = some v := by
  cases v with
  | none => rw [d02OrXx, parse_or_xx_u8, if_pos rfl]
  | some n =>
    rw [parse_or_xx_u8] at h
    by_cases hx : tok = xx
    · rw [if_pos hx] at h; exact absurd h (by simp)
    · rw [if_neg hx] at h
      cases hu : parseU8 tok with
      | none => rw [hu] at h; exact absurd h (by simp)
      | some m =>
        rw [hu] at h
        have hm : m = n := by simpa using h
        subst hm
        have hle := parseU8_le hu
        rw [d02OrXx, parse_or_xx_u8, if_neg (digits_ne_xx (d02Repr_digits m)),
          parseU8_d02Repr hle]
        rfl

theorem intRepr_ne_xx (i : Int) : intRepr i ≠ xx := by
  intro hc
  have hx : 'x' ∈ intRepr i := by rw [hc]; simp [xx]
  rcases intRepr_chars i 'x' hx with h | h <;> simp_all

theorem parse_or_xx_i8_intRepr {tok : Str} {i : Int}
    (h : parse_or_xx_i8 tok = some (some i)) : parse_or_xx_i8 (intRepr i) = some (some i) := by
  rw [parse_or_xx_i8] at h
  by_cases hx : tok = xx
  · rw [if_pos hx] at h; exact absurd h (by simp)
  · rw [if_neg hx] at h
    cases hu : parseI8 tok with
    | none => rw [hu] at h; exact absurd h (by simp)
    | some m =>
      rw [hu] at h
      have hm : m = i := by simpa using h
      subst hm
      obtain ⟨hlo, hhi⟩ := parseI8_range hu
      rw [parse_or_xx_i8, if_neg (intRepr_ne_xx m), parseI8_intRepr hlo hhi]
      rfl

theorem parse_bool_or_xx_ser (v : Option Bool) :
    parse_bool_or_xx (boolOrXx v) = some v := by
  cases v with
  | none => rfl
  | some b => cases b <;> rfl

theorem assert_xx_xx : assert_xx xx = some () := rfl

theorem parseU8_ser {tok : Str} {n : Nat} (h : parseU8 tok = some n) :
    parseU8 (natRepr n) = some n :=
  parseU8_natRepr (parseU8_le h)

theorem someBind {α β : Type} (a : α) (f : α → Option β) : (some a >>= f) = f a := rfl

set_option maxHeartbeats 1000000 in
theorem pBlock_rt {cs : Str} {ph : Phoneme} {rest : Str}
    (h : pBlock cs = some (ph, rest)) (r : Str) :
    pBlock (serPf ph ++ (tagA ++ r)) = some (ph, r) := by
  rw [pBlock] at h
  obtain ⟨⟨v1, cs1⟩, h1, h⟩ := Option.bind_eq_some.mp h
  dsimp only at h
  obtain ⟨⟨v2, cs2⟩, h2, h⟩ := Option.bind_eq_some.mp h
  dsimp only at h
  obtain ⟨⟨v3, cs3⟩, h3, h⟩ := Option.bind_eq_some.mp h
  dsimp only at h
  obtain ⟨⟨v4, cs4⟩, h4, h⟩ := Option.bind_eq_some.mp h
  dsimp only at h
  obtain ⟨⟨v5, cs5⟩, h5, h⟩ := Option.bind_eq_some.mp h
  dsimp only at h
  injection h with h
  injection h with hph hrest
  obtain ⟨t1, hs1, hc1⟩ := field_eq_some h1
  obtain ⟨t2, hs2, hc2⟩ := field_eq_some h2
  obtain ⟨t3, hs3, hc3⟩ := field_eq_some h3
  obtain ⟨t4, hs4, hc4⟩ := field_eq_some h4
  obtain ⟨t5, hs5, hc5⟩ := field_eq_some h5
  have hv1 : v1 = string_or_xx t1 := by simpa [strConv] using hc1.symm
  have hv2 : v2 = string_or_xx t2 := by simpa [strConv] using hc2.symm
  have hv3 : v3 = string_or_xx t3 := by simpa [strConv] using hc3.symm
  have hv4 : v4 = string_or_xx t4 := by simpa [strConv] using hc4.symm
  have hv5 : v5 = string_or_xx t5 := by simpa [strConv] using hc5.symm
  subst hph
  have harg : serPf ⟨v1, v2, v3, v4, v5⟩ ++ (tagA ++ r) =
      t1 ++ ['^'] ++ (t2 ++ ['-'] ++ (t3 ++ ['+'] ++ (t4 ++ ['='] ++ (t5 ++ tagA ++ r)))) := by
    rw [serPf]
    dsimp only
    rw [hv1, hv2, hv3, hv4, hv5, orXxStr_string_or_xx, orXxStr_string_or_xx,
      orXxStr_string_or_xx, orXxStr_string_or_xx, orXxStr_string_or_xx]
    simp only [List.append_assoc]
  rw [harg, pBlock]
  rw [field_ser (splitOnce_stable hs1 _) hc1]
  simp only [someBind]
  rw [field_ser (splitOnce_stable hs2 _) hc2]
  simp only [someBind]
  rw [field_ser (splitOnce_stable hs3 _) hc3]
  simp only [someBind]
  rw [field_ser (splitOnce_stable hs4 _) hc4]
  simp only [someBind]
  rw [field_ser (splitOnce_stable hs5 _) hc5]
  simp only [someBind]

theorem natRepr_chars (n : Nat) : ∀ c ∈ natRepr n, U8Char c :=
  fun c hc => Or.inl (natRepr_digits n c hc)

theorem pairSomeInj {α β : Type} {a c : α} {b d : β}
    (h : (some (a, b) : Option (α × β)) = some (c, d)) : a = c ∧ b = d := by
  injection h with h
  injection h with h1 h2
  exact ⟨h1, h2⟩

theorem parse_or_xx_u8_le {tok : Str} {n : Nat}
    (h : parse_or_xx_u8 tok = some (some n)) : n ≤ 255 := by
  rw [parse_or_xx_u8] at h
  by_cases hx : tok = xx
  · rw [if_pos hx] at h; exact absurd h (by simp)
  · rw [if_neg hx] at h
    cases hu : parseU8 tok with
    | none => rw [hu] at h; exact absurd h (by simp)
    | some m =>
      rw [hu] at h
      have hm : m = n := by simpa using h
      exact hm ▸ parseU8_le hu

theorem parse_or_xx_i8_bounds {tok : Str} {i : Int}
    (h : parse_or_xx_i8 tok = some (some i)) : -128 ≤ i ∧ i ≤ 127 := by
  rw [parse_or_xx_i8] at h
  by_cases hx : tok = xx
  · rw [if_pos hx] at h; exact absurd h (by simp)
  · rw [if_neg hx] at h
    cases hu : parseI8 tok with
    | none => rw [hu] at h; exact absurd h (by simp)
    | some m =>
      rw [hu] at h
      have hm : m = i := by simpa using h
      exact hm ▸ parseI8_range hu

theorem parse_or_xx_u8_natRepr {n : Nat} (h : n ≤ 255) :
    parse_or_xx_u8 (natRepr n) = some (some n) := by
  rw [parse_or_xx_u8, if_neg (digits_ne_xx (natRepr_digits n)), parseU8_natRepr h]
  rfl

theorem parse_bool_or_xx_boolStr (b : Bool) :
    parse_bool_or_xx (boolStr b) = some (some b) := by
  cases b <;> rfl

theorem parse_or_xx_u8_xx : parse_or_xx_u8 xx = some none := rfl

theorem parse_or_xx_i8_xx : parse_or_xx_i8 xx = some none := rfl

theorem parse_bool_or_xx_xx : parse_bool_or_xx xx = some none := rfl

theorem optNotNot (o : Option Bool) :
    (o.map (fun v => !v)).map (fun v => !v) = o := by
  cases o with
  | none => rfl
  | some b => cases b <;> rfl

set_option maxHeartbeats 1000000 in
theorem aBlock_ser_none (r : Str) : aBlock (serAf none ++ (tagB ++ r)) = some (none, r) := by
  have harg : serAf none ++ (tagB ++ r) = xx ++ ['+'] ++ (xx ++ ['+'] ++ (xx ++ tagB ++ r)) := by
    rw [serAf]
    simp only [List.append_assoc]
  rw [harg, aBlock]
  rw [field_ser (splitOnce_ser (by decide) xx_chars (by decide) _) parse_or_xx_i8_xx]
  simp only [someBind]
  rw [field_ser (splitOnce_ser (by decide) xx_chars (by decide) _) parse_or_xx_u8_xx]
  simp only [someBind]
  rw [field_ser (splitOnce_ser (by decide) xx_chars (by decide) _) parse_or_xx_u8_xx]
  simp only [someBind]

set_option maxHeartbeats 1000000 in
theorem aBlock_ser_some {x1 : Int} {x2 x3 : Nat} (h1lo : -128 ≤ x1) (h1hi : x1 ≤ 127)
    (h2 : x2 ≤ 255) (h3 : x3 ≤ 255) (r : Str) :
    aBlock (serAf (some ⟨x1, x2, x3⟩) ++ (tagB ++ r)) = some (some ⟨x1, x2, x3⟩, r) := by
  have harg : serAf (some ⟨x1, x2, x3⟩) ++ (tagB ++ r) =
      intRepr x1 ++ ['+'] ++ (natRepr x2 ++ ['+'] ++ (natRepr x3 ++ tagB ++ r)) := by
    rw [serAf]
    simp only [List.append_assoc]
  rw [harg, aBlock]
  rw [field_ser (splitOnce_ser (by decide) (intRepr_chars x1) (by decide) _)
    (by rw [parse_or_xx_i8, if_neg (intRepr_ne_xx x1), parseI8_intRepr h1lo h1hi]; rfl)]
  simp only [someBind]
  rw [field_ser (splitOnce_ser (by decide) (natRepr_digits x2) (by decide) _)
    (parse_or_xx_u8_natRepr h2)]
  simp only [someBind]
  rw [field_ser (splitOnce_ser (by decide) (natRepr_digits x3) (by decide) _)
    (parse_or_xx_u8_natRepr h3)]
  simp only [someBind]

set_option maxHeartbeats 1000000 in
theorem aBlock_rt {cs : Str} {m : Option Mora} {rest : Str}
    (h : aBlock cs = some (m, rest)) (r : Str) :
    aBlock (serAf m ++ (tagB ++ r)) = some (m, r) := by
  rw [aBlock] at h
  obtain ⟨⟨a1, cs1⟩, h1, h⟩ := Option.bind_eq_some.mp h
  dsimp only at h
  obtain ⟨⟨a2, cs2⟩, h2, h⟩ := Option.bind_eq_some.mp h
  dsimp only at h
  obtain ⟨⟨a3, cs3⟩, h3, h⟩ := Option.bind_eq_some.mp h
  dsimp only at h
  obtain ⟨t1, hs1, hc1⟩ := field_eq_some h1
  obtain ⟨t2, hs2, hc2⟩ := field_eq_some h2
  obtain ⟨t3, hs3, hc3⟩ := field_eq_some h3
  cases a1 with
  | none =>
    obtain ⟨hm, hr⟩ := pairSomeInj h
    rw [← hm]
    exact aBlock_ser_none r
  | some x1 =>
    cases a2 with
    | none =>
      obtain ⟨hm, hr⟩ := pairSomeInj h
      rw [← hm]
      exact aBlock_ser_none r
    | some x2 =>
      cases a3 with
      | none =>
        obtain ⟨hm, hr⟩ := pairSomeInj h
        rw [← hm]
        exact aBlock_ser_none r
      | some x3 =>
        obtain ⟨hm, hr⟩ := pairSomeInj h
        rw [← hm]
        obtain ⟨hlo, hhi⟩ := parse_or_xx_i8_bounds hc1
        exact aBlock_ser_some hlo hhi (parse_or_xx_u8_le hc2) (parse_or_xx_u8_le hc3) r

set_option maxHeartbeats 1600000 in
theorem wordBlock_rt {s1 s2 s3 : Str} (hn1 : s1 ≠ []) (hn2 : s2 ≠ []) (hn3 : s3 ≠ [])
    (hP1 : ∀ c ∈ s1, ¬ U8Char c) (hP2 : ∀ c ∈ s2, ¬ U8Char c) (hP3 : ∀ c ∈ s3, ¬ U8Char c)
    {cs : Str} {w : Option Word} {rest : Str}
    (h : wordBlock s1 s2 s3 cs = some (w, rest)) (r : Str) :
    wordBlock s1 s2 s3 (serWf s1 s2 w ++ (s3 ++ r)) = some (w, r) := by
  rw [wordBlock] at h
  obtain ⟨⟨b1, cs1⟩, h1, h⟩ := Option.bind_eq_some.mp h
  dsimp only at h
  obtain ⟨⟨b2, cs2⟩, h2, h⟩ := Option.bind_eq_some.mp h
  dsimp only at h
  obtain ⟨⟨b3, cs3⟩, h3, h⟩ := Option.bind_eq_some.mp h
  dsimp only at h
  obtain ⟨t1, hs1, hc1⟩ := field_eq_some h1
  obtain ⟨t2, hs2, hc2⟩ := field_eq_some h2
  obtain ⟨t3, hs3, hc3⟩ := field_eq_some h3
  by_cases hall : b1 = none ∧ b2 = none ∧ b3 = none
  · rw [if_pos hall] at h
    obtain ⟨hm, hr⟩ := pairSomeInj h
    rw [← hm]
    have harg : serWf s1 s2 none ++ (s3 ++ r) = xx ++ s1 ++ (xx ++ s2 ++ (xx ++ s3 ++ r)) := by
      rw [serWf]
      simp only [List.append_assoc]
    rw [harg, wordBlock]
    rw [field_ser (splitOnce_ser hn1 xx_chars hP1 _) parse_or_xx_u8_xx]
    simp only [someBind]
    rw [field_ser (splitOnce_ser hn2 xx_chars hP2 _) parse_or_xx_u8_xx]
    simp only [someBind]
    rw [field_ser (splitOnce_ser hn3 xx_chars hP3 _) parse_or_xx_u8_xx]
    simp only [someBind]
    rw [if_pos ⟨trivial, trivial, trivial⟩]
  · rw [if_neg hall] at h
    obtain ⟨hm, hr⟩ := pairSomeInj h
    rw [← hm]
    have harg : serWf s1 s2 (some ⟨b1, b2, b3⟩) ++ (s3 ++ r) =
        d02OrXx b1 ++ s1 ++ (orXxU8 b2 ++ s2 ++ (orXxU8 b3 ++ s3 ++ r)) := by
      rw [serWf]
      simp only [List.append_assoc]
    rw [harg, wordBlock]
    rw [field_ser (splitOnce_ser hn1 (d02OrXx_chars b1) hP1 _) (parse_or_xx_u8_d02 hc1)]
    simp only [someBind]
    rw [field_ser (splitOnce_ser hn2 (orXxU8_chars b2) hP2 _) (parse_or_xx_u8_orXx hc2)]
    simp only [someBind]
    rw [field_ser (splitOnce_ser hn3 (orXxU8_chars b3) hP3 _) (parse_or_xx_u8_orXx hc3)]
    simp only [someBind]
    rw [if_neg hall]

set_option maxHeartbeats 1600000 in
theorem pnBlock_rt {sB sD sEnd : Str} (hnB : sB ≠ []) (hnD : sD ≠ []) (hnE : sEnd ≠ [])
    (hPB : ∀ c ∈ sB, ¬ U8Char c) (hPD : ∀ c ∈ sD, ¬ U8Char c) (hPE : ∀ c ∈ sEnd, ¬ U8Char c)
    {cs : Str} {m : Option AccentPhrasePrevNext} {rest : Str}
    (h : pnBlock sB sD sEnd cs = some (m, rest)) (r : Str) :
    pnBlock sB sD sEnd (serPNf sB sD m ++ (sEnd ++ r)) = some (m, r) := by
  rw [pnBlock] at h
  obtain ⟨⟨e1, cs1⟩, h1, h⟩ := Option.bind_eq_some.mp h
  dsimp only at h
  obtain ⟨⟨e2, cs2⟩, h2, h⟩ := Option.bind_eq_some.mp h
  dsimp only at h
  obtain ⟨⟨e3, cs3⟩, h3, h⟩ := Option.bind_eq_some.mp h
  dsimp only at h
  obtain ⟨⟨e4, cs4⟩, h4, h⟩ := Option.bind_eq_some.mp h
  dsimp only at h
  obtain ⟨⟨e5, cs5⟩, h5, h⟩ := Option.bind_eq_some.mp h
  dsimp only at h
  obtain ⟨t1, hs1, hc1⟩ := field_eq_some h1
  obtain ⟨t2, hs2, hc2⟩ := field_eq_some h2
  obtain ⟨t3, hs3, hc3⟩ := field_eq_some h3
  obtain ⟨t5, hs5, hc5⟩ := field_eq_some h5
  have hser_none : pnBlock sB sD sEnd (serPNf sB sD none ++ (sEnd ++ r)) = some (none, r) := by
    have harg : serPNf sB sD none ++ (sEnd ++ r) =
        xx ++ ['_'] ++ (xx ++ sB ++ (xx ++ ['_'] ++ (xx ++ sD ++ (xx ++ sEnd ++ r)))) := by
      rw [serPNf]
      simp only [List.append_assoc]
    rw [harg, pnBlock]
    rw [field_ser (splitOnce_ser (by decide) xx_chars (by decide) _) parse_or_xx_u8_xx]
    simp only [someBind]
    rw [field_ser (splitOnce_ser hnB xx_chars hPB _) parse_or_xx_u8_xx]
    simp only [someBind]
    rw [field_ser (splitOnce_ser (by decide) xx_chars (by decide) _) parse_bool_or_xx_xx]
    simp only [someBind]
    rw [field_ser (splitOnce_ser hnD xx_chars hPD _) assert_xx_xx]
    simp only [someBind]
    rw [field_ser (splitOnce_ser hnE xx_chars hPE _) parse_bool_or_xx_xx]
    simp only [someBind]
  cases e1 with
  | none =>
    obtain ⟨hm, hr⟩ := pairSomeInj h
    rw [← hm]
    exact hser_none
  | some x1 =>
    cases e2 with
    | none =>
      obtain ⟨hm, hr⟩ := pairSomeInj h
      rw [← hm]
      exact hser_none
    | some x2 =>
      cases e3 with
      | none =>
        obtain ⟨hm, hr⟩ := pairSomeInj h
        rw [← hm]
        exact hser_none
      | some x3 =>
        obtain ⟨hm, hr⟩ := pairSomeInj h
        rw [← hm]
        have harg : serPNf sB sD (some ⟨x1, x2, x3, e5.map (fun v => !v)⟩) ++ (sEnd ++ r) =
            natRepr x1 ++ ['_'] ++ (natRepr x2 ++ sB ++ (boolStr x3 ++ ['_'] ++
              (xx ++ sD ++ (boolOrXx e5 ++ sEnd ++ r)))) := by
          rw [serPNf]
          dsimp only
          rw [optNotNot]
          simp only [List.append_assoc]
        rw [harg, pnBlock]
        rw [field_ser (splitOnce_ser (by decide) (natRepr_digits x1) (by decide) _)
          (parse_or_xx_u8_natRepr (parse_or_xx_u8_le hc1))]
        simp only [someBind]
        rw [field_ser (splitOnce_ser hnB (natRepr_chars x2) hPB _)
          (parse_or_xx_u8_natRepr (parse_or_xx_u8_le hc2))]
        simp only [someBind]
        rw [field_ser (splitOnce_ser (by decide) (boolStr_chars x3) (by decide) _)
          (parse_bool_or_xx_boolStr x3)]
        simp only [someBind]
        rw [field_ser (splitOnce_ser hnD xx_chars hPD _) assert_xx_xx]
        simp only [someBind]
        rw [field_ser (splitOnce_ser hnE (boolOrXx_chars e5) hPE _) (parse_bool_or_xx_ser e5)]
        simp only [someBind]

set_option maxHeartbeats 3200000 in
theorem fBlock_rt {cs : Str} {m : Option AccentPhraseCurrent} {rest : Str}
    (h : fBlock cs = some (m, rest)) (r : Str) :
    fBlock (serFf m ++ (tagG ++ r)) = some (m, r) := by
  rw [fBlock] at h
  obtain ⟨⟨f1, cs1⟩, h1, h⟩ := Option.bind_eq_some.mp h
  dsimp only at h
  obtain ⟨⟨f2, cs2⟩, h2, h⟩ := Option.bind_eq_some.mp h
  dsimp only at h
  obtain ⟨⟨f3, cs3⟩, h3, h⟩ := Option.bind_eq_some.mp h
  dsimp only at h
  obtain ⟨⟨f4, cs4⟩, h4, h⟩ := Option.bind_eq_some.mp h
  dsimp only at h
  obtain ⟨⟨f5, cs5⟩, h5, h⟩ := Option.bind_eq_some.mp h
  dsimp only at h
  obtain ⟨⟨f6, cs6⟩, h6, h⟩ := Option.bind_eq_some.mp h
  dsimp only at h
  obtain ⟨⟨f7, cs7⟩, h7, h⟩ := Option.bind_eq_some.mp h
  dsimp only at h
  obtain ⟨⟨f8, cs8⟩, h8, h⟩ := Option.bind_eq_some.mp h
  dsimp only at h
  obtain ⟨t1, hs1, hc1⟩ := field_eq_some h1
  obtain ⟨t2, hs2, hc2⟩ := field_eq_some h2
  obtain ⟨t3, hs3, hc3⟩ := field_eq_some h3
  obtain ⟨t5, hs5, hc5⟩ := field_eq_some h5
  obtain ⟨t6, hs6, hc6⟩ := field_eq_some h6
  obtain ⟨t7, hs7, hc7⟩ := field_eq_some h7
  obtain ⟨t8, hs8, hc8⟩ := field_eq_some h8
  have hser_none : fBlock (serFf none ++ (tagG ++ r)) = some (none, r) := by
    have harg : serFf none ++ (tagG ++ r) =
        xx ++ ['_'] ++ (xx ++ ['#'] ++ (xx ++ ['_'] ++ (xx ++ ['@'] ++ (xx ++ ['_'] ++
          (xx ++ ['|'] ++ (xx ++ ['_'] ++ (xx ++ tagG ++ r))))))) := by
      rw [serFf]
      simp only [List.append_assoc]
    rw [harg, fBlock]
    rw [field_ser (splitOnce_ser (by decide) xx_chars (by decide) _) parse_or_xx_u8_xx]
    simp only [someBind]
    rw [field_ser (splitOnce_ser (by decide) xx_chars (by decide) _) parse_or_xx_u8_xx]
    simp only [someBind]
    rw [field_ser (splitOnce_ser (by decide) xx_chars (by decide) _) parse_bool_or_xx_xx]
    simp only [someBind]
    rw [field_ser (splitOnce_ser (by decide) xx_chars (by decide) _) assert_xx_xx]
    simp only [someBind]
    rw [field_ser (splitOnce_ser (by decide) xx_chars (by decide) _) parse_or_xx_u8_xx]
    simp only [someBind]
    rw [field_ser (splitOnce_ser (by decide) xx_chars (by decide) _) parse_or_xx_u8_xx]
    simp only [someBind]
    rw [field_ser (splitOnce_ser (by decide) xx_chars (by decide) _) parse_or_xx_u8_xx]
    simp only [someBind]
    rw [field_ser (splitOnce_ser (by decide) xx_chars (by decide) _) parse_or_xx_u8_xx]
    simp only [someBind]
  cases f1 with
  | none =>
    obtain ⟨hm, hr⟩ := pairSomeInj h
    rw [← hm]
    exact hser_none
  | some x1 =>
  cases f2 with
  | none =>
    obtain ⟨hm, hr⟩ := pairSomeInj h
    rw [← hm]
    exact hser_none
  | some x2 =>
  cases f3 with
  | none =>
    obtain ⟨hm, hr⟩ := pairSomeInj h
    rw [← hm]
    exact hser_none
  | some x3 =>
  cases f5 with
  | none =>
    obtain ⟨hm, hr⟩ := pairSomeInj h
    rw [← hm]
    exact hser_none
  | some x5 =>
  cases f6 with
  | none =>
    obtain ⟨hm, hr⟩ := pairSomeInj h
    rw [← hm]
    exact hser_none
  | some x6 =>
  cases f7 with
  | none =>
    obtain ⟨hm, hr⟩ := pairSomeInj h
    rw [← hm]
    exact hser_none
  | some x7 =>
  cases f8 with
  | none =>
    obtain ⟨hm, hr⟩ := pairSomeInj h
    rw [← hm]
    exact hser_none
  | some x8 =>
  obtain ⟨hm, hr⟩ := pairSomeInj h
  rw [← hm]
  have harg : serFf (some ⟨x1, x2, x3, x5, x6, x7, x8⟩) ++ (tagG ++ r) =
      natRepr x1 ++ ['_'] ++ (natRepr x2 ++ ['#'] ++ (boolStr x3 ++ ['_'] ++ (xx ++ ['@'] ++
        (natRepr x5 ++ ['_'] ++ (natRepr x6 ++ ['|'] ++ (natRepr x7 ++ ['_'] ++
          (natRepr x8 ++ tagG ++ r))))))) := by
    rw [serFf]
    simp only [List.append_assoc]
  rw [harg, fBlock]
  rw [field_ser (splitOnce_ser (by decide) (natRepr_chars x1) (by decide) _)
    (parse_or_xx_u8_natRepr (parse_or_xx_u8_le hc1))]
  simp only [someBind]
  rw [field_ser (splitOnce_ser (by decide) (natRepr_chars x2) (by decide) _)
    (parse_or_xx_u8_natRepr (parse_or_xx_u8_le hc2))]
  simp only [someBind]
  rw [field_ser (splitOnce_ser (by decide) (boolStr_chars x3) (by decide) _)
    (parse_bool_or_xx_boolStr x3)]
  simp only [someBind]
  rw [field_ser (splitOnce_ser (by decide) xx_chars (by decide) _) assert_xx_xx]
  simp only [someBind]
  rw [field_ser (splitOnce_ser (by decide) (natRepr_chars x5) (by decide) _)
    (parse_or_xx_u8_natRepr (parse_or_xx_u8_le hc5))]
  simp only [someBind]
  rw [field_ser (splitOnce_ser (by decide) (natRepr_chars x6) (by decide) _)
    (parse_or_xx_u8_natRepr (parse_or_xx_u8_le hc6))]
  simp only [someBind]
  rw [field_ser (splitOnce_ser (by decide) (natRepr_chars x7) (by decide) _)
    (parse_or_xx_u8_natRepr (parse_or_xx_u8_le hc7))]
  simp only [someBind]
  rw [field_ser (splitOnce_ser (by decide) (natRepr_chars x8) (by decide) _)
    (parse_or_xx_u8_natRepr (parse_or_xx_u8_le hc8))]
  simp only [someBind]

set_option maxHeartbeats 1600000 in
theorem bgBlock_rt {sEnd : Str} (hnE : sEnd ≠ []) (hPE : ∀ c ∈ sEnd, ¬ U8Char c)
    {cs : Str} {m : Option BreathGroupPrevNext} {rest : Str}
    (h : bgBlock sEnd cs = some (m, rest)) (r : Str) :
    bgBlock sEnd (serBGf m ++ (sEnd ++ r)) = some (m, r) := by
  rw [bgBlock] at h
  obtain ⟨⟨g1, cs1⟩, h1, h⟩ := Option.bind_eq_some.mp h
  dsimp only at h
  obtain ⟨⟨g2, cs2⟩, h2, h⟩ := Option.bind_eq_some.mp h
  dsimp only at h
  obtain ⟨t1, hs1, hc1⟩ := field_eq_some h1
  obtain ⟨t2, hs2, hc2⟩ := field_eq_some h2
  have hser_none : bgBlock sEnd (serBGf none ++ (sEnd ++ r)) = some (none, r) := by
    have harg : serBGf none ++ (sEnd ++ r) = xx ++ ['_'] ++ (xx ++ sEnd ++ r) := by
      rw [serBGf]
      simp only [List.append_assoc]
    rw [harg, bgBlock]
    rw [field_ser (splitOnce_ser (by decide) xx_chars (by decide) _) parse_or_xx_u8_xx]
    simp only [someBind]
    rw [field_ser (splitOnce_ser hnE xx_chars hPE _) parse_or_xx_u8_xx]
    simp only [someBind]
  cases g1 with
  | none =>
    obtain ⟨hm, hr⟩ := pairSomeInj h
    rw [← hm]
    exact hser_none
  | some x1 =>
  cases g2 with
  | none =>
    obtain ⟨hm, hr⟩ := pairSomeInj h
    rw [← hm]
    exact hser_none
  | some x2 =>
  obtain ⟨hm, hr⟩ := pairSomeInj h
  rw [← hm]
  have harg : serBGf (some ⟨x1, x2⟩) ++ (sEnd ++ r) =
      natRepr x1 ++ ['_'] ++ (natRepr x2 ++ sEnd ++ r) := by
    rw [serBGf]
    simp only [List.append_assoc]
  rw [harg, bgBlock]
  rw [field_ser (splitOnce_ser (by decide) (natRepr_chars x1) (by decide) _)
    (parse_or_xx_u8_natRepr (parse_or_xx_u8_le hc1))]
  simp only [someBind]
  rw [field_ser (splitOnce_ser hnE (natRepr_chars x2) hPE _)
    (parse_or_xx_u8_natRepr (parse_or_xx_u8_le hc2))]
  simp only [someBind]

set_option maxHeartbeats 3200000 in
theorem iBlock_rt {cs : Str} {m : Option BreathGroupCurrent} {rest : Str}
    (h : iBlock cs = some (m, rest)) (r : Str) :
    iBlock (serIf m ++ (tagJ ++ r)) = some (m, r) := by
  rw [iBlock] at h
  obtain ⟨⟨i1, cs1⟩, h1, h⟩ := Option.bind_eq_some.mp h
  dsimp only at h
  obtain ⟨⟨i2, cs2⟩, h2, h⟩ := Option.bind_eq_some.mp h
  dsimp only at h
  obtain ⟨⟨i3, cs3⟩, h3, h⟩ := Option.bind_eq_some.mp h
  dsimp only at h
  obtain ⟨⟨i4, cs4⟩, h4, h⟩ := Option.bind_eq_some.mp h
  dsimp only at h
  obtain ⟨⟨i5, cs5⟩, h5, h⟩ := Option.bind_eq_some.mp h
  dsimp only at h
  obtain ⟨⟨i6, cs6⟩, h6, h⟩ := Option.bind_eq_some.mp h
  dsimp only at h
  obtain ⟨⟨i7, cs7⟩, h7, h⟩ := Option.bind_eq_some.mp h
  dsimp only at h
  obtain ⟨⟨i8, cs8⟩, h8, h⟩ := Option.bind_eq_some.mp h
  dsimp only at h
  obtain ⟨t1, hs1, hc1⟩ := field_eq_some h1
  obtain ⟨t2, hs2, hc2⟩ := field_eq_some h2
  obtain ⟨t3, hs3, hc3⟩ := field_eq_some h3
  obtain ⟨t4, hs4, hc4⟩ := field_eq_some h4
  obtain ⟨t5, hs5, hc5⟩ := field_eq_some h5
  obtain ⟨t6, hs6, hc6⟩ := field_eq_some h6
  obtain ⟨t7, hs7, hc7⟩ := field_eq_some h7
  obtain ⟨t8, hs8, hc8⟩ := field_eq_some h8
  have hser_none : iBlock (serIf none ++ (tagJ ++ r)) = some (none, r) := by
    have harg : serIf none ++ (tagJ ++ r) =
        xx ++ ['-'] ++ (xx ++ ['@'] ++ (xx ++ ['+'] ++ (xx ++ ['&'] ++ (xx ++ ['-'] ++
          (xx ++ ['|'] ++ (xx ++ ['+'] ++ (xx ++ tagJ ++ r))))))) := by
      rw [serIf]
      simp only [List.append_assoc]
    rw [harg, iBlock]
    rw [field_ser (splitOnce_ser (by decide) xx_chars (by decide) _) parse_or_xx_u8_xx]
    simp only [someBind]
    rw [field_ser (splitOnce_ser (by decide) xx_chars (by decide) _) parse_or_xx_u8_xx]
    simp only [someBind]
    rw [field_ser (splitOnce_ser (by decide) xx_chars (by decide) _) parse_or_xx_u8_xx]
    simp only [someBind]
    rw [field_ser (splitOnce_ser (by decide) xx_chars (by decide) _) parse_or_xx_u8_xx]
    simp only [someBind]
    rw [field_ser (splitOnce_ser (by decide) xx_chars (by decide) _) parse_or_xx_u8_xx]
    simp only [someBind]
    rw [field_ser (splitOnce_ser (by decide) xx_chars (by decide) _) parse_or_xx_u8_xx]
    simp only [someBind]
    rw [field_ser (splitOnce_ser (by decide) xx_chars (by decide) _) parse_or_xx_u8_xx]
    simp only [someBind]
    rw [field_ser (splitOnce_ser (by decide) xx_chars (by decide) _) parse_or_xx_u8_xx]
    simp only [someBind]
  cases i1 with
  | none =>
    obtain ⟨hm, hr⟩ := pairSomeInj h
    rw [← hm]
    exact hser_none
  | some x1 =>
  cases i2 with
  | none =>
    obtain ⟨hm, hr⟩ := pairSomeInj h
    rw [← hm]
    exact hser_none
  | some x2 =>
  cases i3 with
  | none =>
    obtain ⟨hm, hr⟩ := pairSomeInj h
    rw [← hm]
    exact hser_none
  | some x3 =>
  cases i4 with
  | none =>
    obtain ⟨hm, hr⟩ := pairSomeInj h
    rw [← hm]
    exact hser_none
  | some x4 =>
  cases i5 with
  | none =>
    obtain ⟨hm, hr⟩ := pairSomeInj h
    rw [← hm]
    exact hser_none
  | some x5 =>
  cases i6 with
  | none =>
    obtain ⟨hm, hr⟩ := pairSomeInj h
    rw [← hm]
    exact hser_none
  | some x6 =>
  cases i7 with
  | none =>
    obtain ⟨hm, hr⟩ := pairSomeInj h
    rw [← hm]
    exact hser_none
  | some x7 =>
  cases i8 with
  | none =>
    obtain ⟨hm, hr⟩ := pairSomeInj h
    rw [← hm]
    exact hser_none
  | some x8 =>
  obtain ⟨hm, hr⟩ := pairSomeInj h
  rw [← hm]
  have harg : serIf (some ⟨x1, x2, x3, x4, x5, x6, x7, x8⟩) ++ (tagJ ++ r) =
      natRepr x1 ++ ['-'] ++ (natRepr x2 ++ ['@'] ++ (natRepr x3 ++ ['+'] ++ (natRepr x4 ++ ['&'] ++
        (natRepr x5 ++ ['-'] ++ (natRepr x6 ++ ['|'] ++ (natRepr x7 ++ ['+'] ++
          (natRepr x8 ++ tagJ ++ r))))))) := by
    rw [serIf]
    simp only [List.append_assoc]
  rw [harg, iBlock]
  rw [field_ser (splitOnce_ser (by decide) (natRepr_chars x1) (by decide) _)
    (parse_or_xx_u8_natRepr (parse_or_xx_u8_le hc1))]
  simp only [someBind]
  rw [field_ser (splitOnce_ser (by decide) (natRepr_chars x2) (by decide) _)
    (parse_or_xx_u8_natRepr (parse_or_xx_u8_le hc2))]
  simp only [someBind]
  rw [field_ser (splitOnce_ser (by decide) (natRepr_chars x3) (by decide) _)
    (parse_or_xx_u8_natRepr (parse_or_xx_u8_le hc3))]
  simp only [someBind]
  rw [field_ser (splitOnce_ser (by decide) (natRepr_chars x4) (by decide) _)
    (parse_or_xx_u8_natRepr (parse_or_xx_u8_le hc4))]
  simp only [someBind]
  rw [field_ser (splitOnce_ser (by decide) (natRepr_chars x5) (by decide) _)
    (parse_or_xx_u8_natRepr (parse_or_xx_u8_le hc5))]
  simp only [someBind]
  rw [field_ser (splitOnce_ser (by decide) (natRepr_chars x6) (by decide) _)
    (parse_or_xx_u8_natRepr (parse_or_xx_u8_le hc6))]
  simp only [someBind]
  rw [field_ser (splitOnce_ser (by decide) (natRepr_chars x7) (by decide) _)
    (parse_or_xx_u8_natRepr (parse_or_xx_u8_le hc7))]
  simp only [someBind]
  rw [field_ser (splitOnce_ser (by decide) (natRepr_chars x8) (by decide) _)
    (parse_or_xx_u8_natRepr (parse_or_xx_u8_le hc8))]
  simp only [someBind]

set_option maxHeartbeats 1600000 in
theorem kBlock_rt {cs : Str} {u : Utterance} (h : kBlock cs = some u) :
    kBlock (serKf u) = some u := by
  rw [kBlock] at h
  obtain ⟨⟨k1, cs1⟩, h1, h⟩ := Option.bind_eq_some.mp h
  dsimp only at h
  obtain ⟨⟨k2, cs2⟩, h2, h⟩ := Option.bind_eq_some.mp h
  dsimp only at h
  obtain ⟨k3, h3, h⟩ := Option.bind_eq_some.mp h
  obtain ⟨t1, hs1, hc1⟩ := field_eq_some h1
  obtain ⟨t2, hs2, hc2⟩ := field_eq_some h2
  injection h with h
  rw [← h]
  have harg : serKf ⟨k1, k2, k3⟩ =
      natRepr k1 ++ ['+'] ++ (natRepr k2 ++ ['-'] ++ natRepr k3) := by
    rw [serKf]
    simp only [List.append_assoc]
  rw [harg, kBlock]
  rw [field_ser (splitOnce_ser (by decide) (natRepr_chars k1) (by decide) _) (parseU8_ser hc1)]
  simp only [someBind]
  rw [field_ser (splitOnce_ser (by decide) (natRepr_chars k2) (by decide) _) (parseU8_ser hc2)]
  simp only [someBind]
  rw [parseU8_ser h3]
  simp only [someBind]

set_option maxHeartbeats 40000000 in
theorem labelParse_serLabel {cs : Str} {L : Label} (h : labelParse cs = some L) :
    labelParse (serLabel L) = some L := by
  rw [labelParse] at h
  unfold bBlock cBlock dBlock eBlock gBlock hBlock jBlock at h
  obtain ⟨⟨p, cs1⟩, hp, h⟩ := Option.bind_eq_some.mp h
  dsimp only at h
  obtain ⟨⟨a, cs2⟩, ha, h⟩ := Option.bind_eq_some.mp h
  dsimp only at h
  obtain ⟨⟨b, cs3⟩, hb, h⟩ := Option.bind_eq_some.mp h
  dsimp only at h
  obtain ⟨⟨c, cs4⟩, hcw, h⟩ := Option.bind_eq_some.mp h
  dsimp only at h
  obtain ⟨⟨d, cs5⟩, hd, h⟩ := Option.bind_eq_some.mp h
  dsimp only at h
  obtain ⟨⟨e, cs6⟩, he, h⟩ := Option.bind_eq_some.mp h
  dsimp only at h
  obtain ⟨⟨f, cs7⟩, hf, h⟩ := Option.bind_eq_some.mp h
  dsimp only at h
  obtain ⟨⟨g, cs8⟩, hg, h⟩ := Option.bind_eq_some.mp h
  dsimp only at h
  obtain ⟨⟨hh, cs9⟩, hhb, h⟩ := Option.bind_eq_some.mp h
  dsimp only at h
  obtain ⟨⟨i, cs10⟩, hi, h⟩ := Option.bind_eq_some.mp h
  dsimp only at h
  obtain ⟨⟨j, cs11⟩, hj, h⟩ := Option.bind_eq_some.mp h
  dsimp only at h
  obtain ⟨u, hk, h⟩ := Option.bind_eq_some.mp h
  have hL := Option.some.inj h
  rw [← hL]
  rw [serLabel, labelParse]
  unfold bBlock cBlock dBlock eBlock gBlock hBlock jBlock
  dsimp only
  simp only [List.append_assoc]
  rw [pBlock_rt hp _]
  simp only [someBind]
  rw [aBlock_rt ha _]
  simp only [someBind]
  rw [wordBlock_rt (by decide) (by decide) (by decide) (by decide) (by decide) (by decide) hb _]
  simp only [someBind]
  rw [wordBlock_rt (by decide) (by decide) (by decide) (by decide) (by decide) (by decide) hcw _]
  simp only [someBind]
  rw [wordBlock_rt (by decide) (by decide) (by decide) (by decide) (by decide) (by decide) hd _]
  simp only [someBind]
  rw [pnBlock_rt (by decide) (by decide) (by decide) (by decide) (by decide) (by decide) he _]
  simp only [someBind]
  rw [fBlock_rt hf _]
  simp only [someBind]
  rw [pnBlock_rt (by decide) (by decide) (by decide) (by decide) (by decide) (by decide) hg _]
  simp only [someBind]
  rw [bgBlock_rt (by decide) (by decide) hhb _]
  simp only [someBind]
  rw [iBlock_rt hi _]
  simp only [someBind]
  rw [bgBlock_rt (by decide) (by decide) hj _]
  simp only [someBind]
  rw [kBlock_rt hk]
  simp only [someBind]

/-- Errors of `jlabel-question` (`ParseError`); the `ParseIntError` payloads
of `FailWildcard`/`FailLiteral` are not modelled. -/
inductive QPositionError where
  | noMatchingPosition
  | missingPrefixAsterisk
  | missingSuffixAsterisk
  | prefixVerifyError
  | suffixVerifyError
  | emptyRange
  deriving DecidableEq, Repr

/-- Errors of `jlabel-question` (`ParseError`). -/
inductive QError where
  | positionMismatch
  | invalidPosition (e : QPositionError)
  | empty
  | incontinuousRange
  | failWildcard
  | failLiteral
  | invalidBoolean (s : Str)
  deriving DecidableEq, Repr

/-- `PhonePosition`. -/
inductive PhonePosition where
  | p1 | p2 | p3 | p4 | p5
  deriving DecidableEq, Repr

/-- `SignedRangePosition`. -/
inductive SignedRangePosition where
  | a1
  deriving DecidableEq, Repr

/-- `UnsignedRangePosition`. -/
inductive UnsignedRangePosition where
  | a2 | a3
  | e1 | e2
  | f1 | f2 | f5 | f6 | f7 | f8
  | g1 | g2
  | h1 | h2
  | i1 | i2 | i3 | i4 | i5 | i6 | i7 | i8
  | j1 | j2
  | k1 | k2 | k3
  deriving DecidableEq, Repr

/-- `BooleanPosition`. -/
inductive BooleanPosition where
  | e3 | e5
  | f3
  | g3 | g5
  deriving DecidableEq, Repr

/-- `CategoryPosition`. -/
inductive CategoryPosition where
  | b1 | b2 | b3 | c1 | c2 | c3 | d1 | d2 | d3
  deriving DecidableEq, Repr

/-- `UndefinedPotision` (name as in the source). -/
inductive UndefinedPotision where
  | e4 | f4 | g4
  deriving DecidableEq, Repr

/-- `AllPosition`. -/
inductive AllPosition where
  | phone (p : PhonePosition)
  | signedRange (p : SignedRangePosition)
  | unsignedRange (p : UnsignedRangePosition)
  | boolean (p : BooleanPosition)
  | category (p : CategoryPosition)
  | undefined (p : UndefinedPotision)
  deriving DecidableEq, Repr

/-- `PhonePosition::get`; as in the source, `P1` reads struct field `p1`
and `P2` reads struct field `p2`. -/
def phoneGet (p : PhonePosition) (label : Label) : Option Str :=
  match p with
  | .p1 => label.phoneme.p1
  | .p2 => label.phoneme.p2
  | .p3 => label.phoneme.c
  | .p4 => label.phoneme.n1
  | .p5 => label.phoneme.n2

/-- `SignedRangePosition::get`. -/
def signedGet (p : SignedRangePosition) (label : Label) : Option Int :=
  match p with
  | .a1 => label.mora.map (fun m => m.relative_accent_position)

/-- `UnsignedRangePosition::get`. -/
def unsignedGet (p : UnsignedRangePosition) (label : Label) : Option Nat :=
  match p with
  | .a2 => label.mora.map (fun m => m.position_forward)
  | .a3 => label.mora.map (fun m => m.position_backward)
  | .e1 => label.accent_phrase_prev.map (fun a => a.mora_count)
  | .e2 => label.accent_phrase_prev.map (fun a => a.accent_position)
  | .f1 => label.accent_phrase_curr.map (fun a => a.mora_count)
  | .f2 => label.accent_phrase_curr.map (fun a => a.accent_position)
  | .f5 => label.accent_phrase_curr.map (fun a => a.accent_phrase_position_forward)
  | .f6 => label.accent_phrase_curr.map (fun a => a.accent_phrase_position_backward)
  | .f7 => label.accent_phrase_curr.map (fun a => a.mora_position_forward)
  | .f8 => label.accent_phrase_curr.map (fun a => a.mora_position_backward)
  | .g1 => label.accent_phrase_next.map (fun a => a.mora_count)
  | .g2 => label.accent_phrase_next.map (fun a => a.accent_position)
  | .h1 => label.breath_group_prev.map (fun b => b.accent_phrase_count)
  | .h2 => label.breath_group_prev.map (fun b => b.mora_count)
  | .i1 => label.breath_group_curr.map (fun b => b.accent_phrase_count)
  | .i2 => label.breath_group_curr.map (fun b => b.mora_count)
  | .i3 => label.breath_group_curr.map (fun b => b.breath_group_position_forward)
  | .i4 => label.breath_group_curr.map (fun b => b.breath_group_position_backward)
  | .i5 => label.breath_group_curr.map (fun b => b.accent_phrase_position_forward)
  | .i6 => label.breath_group_curr.map (fun b => b.accent_phrase_position_backward)
  | .i7 => label.breath_group_curr.map (fun b => b.mora_position_forward)
  | .i8 => label.breath_group_curr.map (fun b => b.mora_position_backward)
  | .j1 => label.breath_group_next.map (fun b => b.accent_phrase_count)
  | .j2 => label.breath_group_next.map (fun b => b.mora_count)
  | .k1 => some label.utterance.breath_group_count
  | .k2 => some label.utterance.accent_phrase_count
  | .k3 => some label.utterance.mora_count

/-- `BooleanPosition::get`. -/
def booleanGet (p : BooleanPosition) (label : Label) : Option Bool :=
  match p with
  | .e3 => label.accent_phrase_prev.map (fun a => a.is_interrogative)
  | .e5 => label.accent_phrase_prev.bind (fun a => a.is_pause_insertion)
  | .f3 => label.accent_phrase_curr.map (fun a => a.is_interrogative)
  | .g3 => label.accent_phrase_next.map (fun a => a.is_interrogative)
  | .g5 => label.accent_phrase_next.bind (fun a => a.is_pause_insertion)

/-- `CategoryPosition::get`. -/
def categoryGet (p : CategoryPosition) (label : Label) : Option Nat :=
  match p with
  | .b1 => label.word_prev.bind (fun w => w.pos)
  | .b2 => label.word_prev.bind (fun w => w.ctype)
  | .b3 => label.word_prev.bind (fun w => w.cform)
  | .c1 => label.word_curr.bind (fun w => w.pos)
  | .c2 => label.word_curr.bind (fun w => w.ctype)
  | .c3 => label.word_curr.bind (fun w => w.cform)
  | .d1 => label.word_next.bind (fun w => w.pos)
  | .d2 => label.word_next.bind (fun w => w.ctype)
  | .d3 => label.word_next.bind (fun w => w.cform)

/-- `UndefinedPotision::get`: always absent. -/
def undefinedGet (_ : UndefinedPotision) (_ : Label) : Option Unit := none

/-- Eight-bit unsigned wraparound (release-profile overflow semantics). -/
def wrapU8 (n : Nat) : Nat := n % 256

/-- Eight-bit signed wraparound. -/
def wrapI8 (i : Int) : Int := (i + 128) % 256 - 128

/-- Model of `range_i8` in `position.rs`. -/
def range_i8 (s : Str) : Except QError (Int × Int) :=
  if s = ['-', '?', '?'] then .ok (-99, -9)
  else if s = ['-', '?'] then .ok (-9, 0)
  else if s = ['?'] then .ok (0, 10)
  else if s.getLast? = some '?' then
    match parseI8 s.dropLast with
    | none => .error .failWildcard
    | some d => .ok (wrapI8 (d * 10), wrapI8 (wrapI8 (d + 1) * 10))
  else
    match parseI8 s with
    | none => .error .failLiteral
    | some d => .ok (d, wrapI8 (d + 1))

/-- Model of `range_u8` in `position.rs`. -/
def range_u8 (s : Str) : Except QError (Nat × Nat) :=
  if s = ['?'] then .ok (1, 10)
  else if s.getLast? = some '?' then
    match parseU8 s.dropLast with
    | none => .error .failWildcard
    | some d => .ok (wrapU8 (d * 10), wrapU8 (wrapU8 (d + 1) * 10))
  else
    match parseU8 s with
    | none => .error .failLiteral
    | some d => .ok (d, wrapU8 (d + 1))

/-- One fold step of `merge_ranges`. -/
def mergeStep {α : Type} [LinearOrder α] (acc : Except QError (α × α)) (curr : α × α) :
    Except QError (α × α) :=
  match acc with
  | .error .empty => .ok curr
  | .ok acc =>
    if curr.1 ≤ acc.2 then .ok (min acc.1 curr.1, max acc.2 curr.2)
    else .error .incontinuousRange
  | _ => .error .incontinuousRange

/-- Model of `merge_ranges`: sort by range start, then fold, requiring each
next range to start no later than the running union ends. -/
def mergeRanges {α : Type} [LinearOrder α] [DecidableEq α]
    (ranges : List (α × α)) : Except QError (α × α) :=
  let sorted := ranges.mergeSort (fun a b => decide (a.1 ≤ b.1))
  sorted.foldl mergeStep (.error .empty)

/-- Range test of Rust `Range::contains` (start inclusive, end exclusive). -/
def rangeContains {α : Type} [LinearOrder α] (r : α × α) (t : α) : Bool :=
  decide (r.1 ≤ t) && decide (t < r.2)

/-- `PhonePosition::range`. -/
def phoneRange (ranges : List Str) : Except QError (List Str) := .ok ranges

/-- `SignedRangePosition::range`. -/
def signedRange (ranges : List Str) : Except QError (Int × Int) := do
  let parsed ← ranges.mapM range_i8
  mergeRanges parsed

/-- `UnsignedRangePosition::range`. -/
def unsignedRange (ranges : List Str) : Except QError (Nat × Nat) := do
  let parsed ← ranges.mapM range_u8
  mergeRanges parsed

/-- `BooleanPosition::range`: only the first token is consulted. -/
def booleanRange (ranges : List Str) : Except QError Bool :=
  match ranges.head? with
  | none => .error .empty
  | some first =>
    if first = ['0'] then .ok false
    else if first = ['1'] then .ok true
    else .error (.invalidBoolean first)

/-- `CategoryPosition::range`. -/
def categoryRange (ranges : List Str) : Except QError (List Nat) :=
  ranges.mapM (fun s =>
    match parseU8 s with
    | none => Except.error QError.failLiteral
    | some n => Except.ok n)

/-- `UndefinedPotision::range`: never fails, carries no information. -/
def undefinedRange (_ : List Str) : Except QError Unit := .ok ()

/-- Prefix delimiter byte set of `find_delim_marks`. -/
def delimSetPre : Str := ['!', '#', '%', '&', '+', '-', '=', '@', '^', '_', '|', ':']

/-- Suffix delimiter byte set of `find_delim_marks`. -/
def delimSetSuf : Str := ['!', '#', '%', '&', '+', '-', '=', '@', '^', '_', '|', '/']

/-- Model of `trim_asterisk`. -/
def trim_asterisk (input : Str) : Str × (Bool × Bool) :=
  let (p1, s0) := if input.head? = some '*' then (input.tail, true) else (input, false)
  let (p2, s1) := if p1.getLast? = some '*' then (p1.dropLast, true) else (p1, false)
  (p2, (s0, s1))

/-- Model of `find_delim_marks`: position of the first prefix-delimiter
byte and of the last suffix-delimiter byte, with the overlap resolution of
the source. -/
def find_delim_marks (pattern : Str) : Option Nat × Option Nat :=
  let pre := pattern.findIdx? (fun b => delimSetPre.contains b)
  let suf := (pattern.reverse.findIdx? (fun b => delimSetSuf.contains b)).map
    (fun i => pattern.length - i - 1)
  match pre, suf with
  | some p, some s =>
    if p < s then (some p, some s)
    else if p = pattern.length - 1 then (none, some s)
    else (some p, none)
  | p, s => (p, s)

/-- Model of `multi_forward`. -/
def multi_forward (pattern : Str) (pre : Nat) : Option AllPosition :=
  if pre < 1 then none
  else
    match pattern.get? (pre - 1), pattern.get? pre with
    | some a, some b =>
      if b = ':' then
        match a with
        | 'A' => some (.signedRange .a1)
        | 'B' => some (.category .b1)
        | 'C' => some (.category .c1)
        | 'D' => some (.category .d1)
        | 'E' => some (.unsignedRange .e1)
        | 'F' => some (.unsignedRange .f1)
        | 'G' => some (.unsignedRange .g1)
        | 'H' => some (.unsignedRange .h1)
        | 'I' => some (.unsignedRange .i1)
        | 'J' => some (.unsignedRange .j1)
        | 'K' => some (.unsignedRange .k1)
        | _ => none
      else none
    | _, _ => none

/-- Model of `multi_reverse`. -/
def multi_reverse (pattern : Str) (suf : Nat) : Option AllPosition :=
  if pattern.length ≤ suf + 1 then none
  else
    match pattern.get? suf, pattern.get? (suf + 1) with
    | some a, some b =>
      if a = '/' then
        match b with
        | 'A' => some (.phone .p5)
        | 'B' => some (.unsignedRange .a3)
        | 'C' => some (.category .b3)
        | 'D' => some (.category .c3)
        | 'E' => some (.category .d3)
        | 'F' => some (.boolean .e5)
        | 'G' => some (.unsignedRange .f8)
        | 'H' => some (.boolean .g5)
        | 'I' => some (.unsignedRange .h2)
        | 'J' => some (.unsignedRange .i8)
        | 'K' => some (.unsignedRange .j2)
        | _ => none
      else none
    | _, _ => none

/-- Model of `single_forward`. -/
def single_forward (c : Char) : Option AllPosition :=
  match c with
  | '^' => some (.phone .p2)
  | '=' => some (.phone .p5)
  | '!' => some (.boolean .e3)
  | '#' => some (.boolean .f3)
  | '%' => some (.boolean .g3)
  | '&' => some (.unsignedRange .i5)
  | _ => none

/-- Model of `single_reverse`. -/
def single_reverse (c : Char) : Option AllPosition :=
  match c with
  | '^' => some (.phone .p1)
  | '=' => some (.phone .p4)
  | '!' => some (.unsignedRange .e2)
  | '#' => some (.unsignedRange .f2)
  | '%' => some (.unsignedRange .g2)
  | '&' => some (.unsignedRange .i4)
  | _ => none

/-- The arms of the `combination_match` source match, in source order
(its constant byte-pair patterns are pairwise distinct, so the match is
a first-match lookup table). -/
def combinationTable : List ((Char × Char) × AllPosition) :=
  [(('^', '-'), .phone .p2),
   (('-', '+'), .phone .p3),
   (('+', '='), .phone .p4),
   (('=', '/'), .phone .p5),
   (('+', '+'), .unsignedRange .a2),
   (('-', '_'), .category .b2),
   (('_', '+'), .category .c2),
   (('+', '_'), .category .d2),
   (('_', '!'), .unsignedRange .e2),
   (('!', '_'), .boolean .e3),
   (('_', '-'), .undefined .e4),
   (('-', '/'), .boolean .e5),
   (('_', '#'), .unsignedRange .f2),
   (('#', '_'), .boolean .f3),
   (('_', '@'), .undefined .f4),
   (('@', '_'), .unsignedRange .f5),
   (('_', '|'), .unsignedRange .f6),
   (('|', '_'), .unsignedRange .f7),
   (('_', '%'), .unsignedRange .g2),
   (('%', '_'), .boolean .g3),
   (('_', '_'), .undefined .g4),
   (('-', '@'), .unsignedRange .i2),
   (('@', '+'), .unsignedRange .i3),
   (('+', '&'), .unsignedRange .i4),
   (('&', '-'), .unsignedRange .i5),
   (('-', '|'), .unsignedRange .i6),
   (('|', '+'), .unsignedRange .i7),
   (('+', '-'), .unsignedRange .k2)]

/-- Model of `combination_match`. -/
def combination_match (p s : Char) : Option AllPosition :=
  combinationTable.lookup (p, s)

/-- Model of `match_position`. -/
def match_position (pattern : Str) (pre suf : Option Nat) (asterisks : Bool × Bool) :
    Except QPositionError AllPosition :=
  if suf = none ∧ asterisks.2 = false then .ok (.unsignedRange .k3)
  else
    match pre.bind (fun p => (multi_forward pattern p).or
        ((pattern.get? p).bind single_forward)) with
    | some position => .ok position
    | none =>
      match suf.bind (fun s => (multi_reverse pattern s).or
          ((pattern.get? s).bind single_reverse)) with
      | some position => .ok position
      | none =>
        match pre, suf with
        | some p, some s =>
          match pattern.get? p, pattern.get? s with
          | some cp, some cs =>
            match combination_match cp cs with
            | some position => .ok position
            | none => .error .noMatchingPosition
          | _, _ => .error .noMatchingPosition
        | _, _ => .error .noMatchingPosition

/-- Model of `reverse_hint`. -/
def reverse_hint (position : AllPosition) : Str × Str :=
  match position with
  | .phone .p1 => ([], ['^'])
  | .phone .p2 => (['^'], ['-'])
  | .phone .p3 => (['-'], ['+'])
  | .phone .p4 => (['+'], ['='])
  | .phone .p5 => (['='], tagA)
  | .signedRange .a1 => (tagA, ['+'])
  | .unsignedRange .a2 => (['+'], ['+'])
  | .unsignedRange .a3 => (['+'], tagB)
  | .category .b1 => (tagB, ['-'])
  | .category .b2 => (['-'], ['_'])
  | .category .b3 => (['_'], tagC)
  | .category .c1 => (tagC, ['_'])
  | .category .c2 => (['_'], ['+'])
  | .category .c3 => (['+'], tagD)
  | .category .d1 => (tagD, ['+'])
  | .category .d2 => (['+'], ['_'])
  | .category .d3 => (['_'], tagE)
  | .unsignedRange .e1 => (tagE, ['_'])
  | .unsignedRange .e2 => (['_'], ['!'])
  | .boolean .e3 => (['!'], ['_'])
  | .undefined .e4 => (['_'], ['-'])
  | .boolean .e5 => (['-'], tagF)
  | .unsignedRange .f1 => (tagF, ['_'])
  | .unsignedRange .f2 => (['_'], ['#'])
  | .boolean .f3 => (['#'], ['_'])
  | .undefined .f4 => (['_'], ['@'])
  | .unsignedRange .f5 => (['@'], ['_'])
  | .unsignedRange .f6 => (['_'], ['|'])
  | .unsignedRange .f7 => (['|'], ['_'])
  | .unsignedRange .f8 => (['_'], tagG)
  | .unsignedRange .g1 => (tagG, ['_'])
  | .unsignedRange .g2 => (['_'], ['%'])
  | .boolean .g3 => (['%'], ['_'])
  | .undefined .g4 => (['_'], ['_'])
  | .boolean .g5 => (['_'], tagH)
  | .unsignedRange .h1 => (tagH, ['_'])
  | .unsignedRange .h2 => (['_'], tagI)
  | .unsignedRange .i1 => (tagI, ['-'])
  | .unsignedRange .i2 => (['-'], ['@'])
  | .unsignedRange .i3 => (['@'], ['+'])
  | .unsignedRange .i4 => (['+'], ['&'])
  | .unsignedRange .i5 => (['&'], ['-'])
  | .unsignedRange .i6 => (['-'], ['|'])
  | .unsignedRange .i7 => (['|'], ['+'])
  | .unsignedRange .i8 => (['+'], tagJ)
  | .unsignedRange .j1 => (tagJ, ['_'])
  | .unsignedRange .j2 => (['_'], tagK)
  | .unsignedRange .k1 => (tagK, ['+'])
  | .unsignedRange .k2 => (['+'], ['-'])
  | .unsignedRange .k3 => (['-'], [])

/-- Model of `generate_range`: verify the resolved position's hints
against the actual prefix and suffix text, and return the core range. -/
def generate_range (position : AllPosition) (pattern : Str) (pre suf : Option Nat) :
    Except QPositionError (Nat × Nat) :=
  let p := match pre with
    | some i => i + 1
    | none => 0
  let s := suf.getD pattern.length
  let (rp, rs) := reverse_hint position
  if ¬ (pattern.take p).isSuffixOf rp then .error .prefixVerifyError
  else if ¬ (pattern.drop s).isPrefixOf rs then .error .suffixVerifyError
  else .ok (p, s)

/-- Model of `estimate_position`. -/
def estimate_position (input_pattern : Str) :
    Except QPositionError (AllPosition × Str) := do
  let (pattern, asterisks) := trim_asterisk input_pattern
  let (pre, suf) := find_delim_marks pattern
  let position ← match_position pattern pre suf asterisks
  if position ≠ .phone .p1 ∧ asterisks.1 = false then
    .error .missingPrefixAsterisk
  else if position ≠ .unsignedRange .k3 ∧ asterisks.2 = false then
    .error .missingSuffixAsterisk
  else
    match generate_range position pattern pre suf with
    | .error e => .error e
    | .ok (a, b) =>
      if b ≤ a then .error .emptyRange
      else .ok (position, (pattern.take b).drop a)

/-- `Question<P>`: a position paired with an optional compiled range
(`none` = the field must be absent). -/
structure Question (P R : Type) where
  position : P
  range : Option R
  deriving DecidableEq, Repr

/-- Model of `Question::new`: the single core text `xx` produces the
absent-field sentinel; anything else is compiled by the position's range
function. -/
def questionNew {P R : Type} (rangeFn : List Str → Except QError R) (position : P)
    (ranges : List Str) : Except QError (Question P R) :=
  if ranges = [xx] then .ok ⟨position, none⟩
  else (rangeFn ranges).map (fun r => ⟨position, some r⟩)

/-- Model of `Question::test`: the present/present case applies the
kind-specific test, absent/absent is true, the mixed cases are false. -/
def questionTest {P R T : Type} (get : P → Label → Option T) (test : R → T → Bool)
    (q : Question P R) (label : Label) : Bool :=
  match q.range, get q.position label with
  | some r, some t => test r t
  | none, none => true
  | _, _ => false

/-- `PhonePosition::test`. -/
def phoneTest (r : List Str) (t : Str) : Bool := r.contains t

/-- `SignedRangePosition::test`. -/
def signedTest (r : Int × Int) (t : Int) : Bool := rangeContains r t

/-- `UnsignedRangePosition::test`. -/
def unsignedTest (r : Nat × Nat) (t : Nat) : Bool := rangeContains r t

/-- `BooleanPosition::test`. -/
def booleanTest (r t : Bool) : Bool := r == t

/-- `CategoryPosition::test`. -/
def categoryTest (r : List Nat) (t : Nat) : Bool := r.contains t

/-- `UndefinedPotision::test`: constantly true. -/
def undefinedTest (_ : Unit) (_ : Unit) : Bool := true

/-- `AllQuestion`: the closed union over the six position kinds. -/
inductive AllQuestion where
  | phone (q : Question PhonePosition (List Str))
  | signedRange (q : Question SignedRangePosition (Int × Int))
  | unsignedRange (q : Question UnsignedRangePosition (Nat × Nat))
  | boolean (q : Question BooleanPosition Bool)
  | category (q : Question CategoryPosition (List Nat))
  | undefined (q : Question UndefinedPotision Unit)
  deriving DecidableEq, Repr

/-- Model of `AllQuestion::test`. -/
def allQuestionTest (q : AllQuestion) (label : Label) : Bool :=
  match q with
  | .phone q => questionTest phoneGet phoneTest q label
  | .signedRange q => questionTest signedGet signedTest q label
  | .unsignedRange q => questionTest unsignedGet unsignedTest q label
  | .boolean q => questionTest booleanGet booleanTest q label
  | .category q => questionTest categoryGet categoryTest q label
  | .undefined q => questionTest undefinedGet undefinedTest q label

/-- The pattern loop of `AllQuestion::parse`: resolve every pattern,
require all resolved positions to agree, and collect the core texts. -/
def collectPatterns : List Str → Option AllPosition → List Str →
    Except QError (Option AllPosition × List Str)
  | [], pos, ranges => .ok (pos, ranges)
  | pattern :: rest, pos, ranges =>
    match estimate_position pattern with
    | .error e => .error (.invalidPosition e)
    | .ok (p, range) =>
      match pos with
      | some position =>
        if p = position then collectPatterns rest (some position) (ranges ++ [range])
        else .error .positionMismatch
      | none => collectPatterns rest (some p) (ranges ++ [range])

/-- Model of `AllQuestion::parse`. -/
def allQuestionParse (patterns : List Str) : Except QError AllQuestion := do
  let (position, ranges) ← collectPatterns patterns none []
  match position with
  | none => .error .empty
  | some (.phone p) => (questionNew phoneRange p ranges).map .phone
  | some (.signedRange p) => (questionNew signedRange p ranges).map .signedRange
  | some (.unsignedRange p) => (questionNew unsignedRange p ranges).map .unsignedRange
  | some (.boolean p) => (questionNew booleanRange p ranges).map .boolean
  | some (.category p) => (questionNew categoryRange p ranges).map .category
  | some (.undefined p) => (questionNew undefinedRange p ranges).map .undefined

/-- `NoOpFallback<T>`. -/
inductive NoOpFallback (T : Type) where
  | ok (t : T)
  | noOp
  deriving DecidableEq, Repr

/-- Model of `NoOpFallback::parse`: wrap a successful inner parse, and
swallow any inner error into the `noOp` sentinel. -/
def noOpParse {T : Type} (parseT : List Str → Except QError T) (patterns : List Str) :
    Except QError (NoOpFallback T) :=
  match parseT patterns with
  | .ok t => .ok (.ok t)
  | .error _ => .ok .noOp

/-- Model of `NoOpFallback::test`: the sentinel matches nothing. -/
def noOpTest {T : Type} (testT : T → Label → Bool) : NoOpFallback T → Label → Bool
  | .ok inner => testT inner
  | .noOp => fun _ => false

/-! ## Claim verification -/

deriving instance DecidableEq for Except

/-- The running example label of the crate documentation. -/
def labelExampleString : String :=
  "sil^n-i+h=o/A:-3+1+7/B:xx-xx_xx/C:02_xx+xx/D:02+xx_xx/E:xx_xx!xx_xx-xx/F:7_4#0_xx@1_3|1_12/G:4_4%0_xx_1/H:xx_xx/I:3-12@1+2&1-8|1+41/J:5_29/K:2+8-41"

/-- The parsed form of `labelExampleString`. -/
def labelExample : Label where
  phoneme := ⟨some ['s', 'i', 'l'], some ['n'], some ['i'], some ['h'], some ['o']⟩
  mora := some ⟨-3, 1, 7⟩
  word_prev := none
  word_curr := some ⟨some 2, none, none⟩
  word_next := some ⟨some 2, none, none⟩
  accent_phrase_prev := none
  accent_phrase_curr := some ⟨7, 4, false, 1, 3, 1, 12⟩
  accent_phrase_next := some ⟨4, 4, false, some false⟩
  breath_group_prev := none
  breath_group_curr := some ⟨3, 12, 1, 2, 1, 8, 1, 41⟩
  breath_group_next := some ⟨5, 29⟩
  utterance := ⟨2, 8, 41⟩

/-- The label of the documentation example with a previous accent phrase
whose serialized pause-insertion sub-field (E5) is `0`. -/
def labelPauseZeroString : String :=
  "sil^n-i+h=o/A:-3+1+7/B:xx-xx_xx/C:02_xx+xx/D:02+xx_xx/E:1_1!0_xx-0/F:7_4#0_xx@1_3|1_12/G:4_4%0_xx_1/H:xx_xx/I:3-12@1+2&1-8|1+41/J:5_29/K:2+8-41"

/-- Like `labelPauseZeroString` but with E5 serialized as `1`. -/
def labelPauseOneString : String :=
  "sil^n-i+h=o/A:-3+1+7/B:xx-xx_xx/C:02_xx+xx/D:02+xx_xx/E:1_1!0_xx-1/F:7_4#0_xx@1_3|1_12/G:4_4%0_xx_1/H:xx_xx/I:3-12@1+2&1-8|1+41/J:5_29/K:2+8-41"

/-- Whether a question's compiled range is present. -/
def allQuestionRangeIsSome : AllQuestion → Bool
  | .phone q => q.range.isSome
  | .signedRange q => q.range.isSome
  | .unsignedRange q => q.range.isSome
  | .boolean q => q.range.isSome
  | .category q => q.range.isSome
  | .undefined q => q.range.isSome

/-- Whether the label field a question targets is present. -/
def allQuestionTargetIsSome (q : AllQuestion) (label : Label) : Bool :=
  match q with
  | .phone q => (phoneGet q.position label).isSome
  | .signedRange q => (signedGet q.position label).isSome
  | .unsignedRange q => (unsignedGet q.position label).isSome
  | .boolean q => (booleanGet q.position label).isSome
  | .category q => (categoryGet q.position label).isSome
  | .undefined q => (undefinedGet q.position label).isSome

/-- The kind-specific test result of the claim's both-present case (false
in the other cases). -/
def kindTestResult (q : AllQuestion) (label : Label) : Bool :=
  match q with
  | .phone q =>
    match q.range, phoneGet q.position label with
    | some r, some t => phoneTest r t
    | _, _ => false
  | .signedRange q =>
    match q.range, signedGet q.position label with
    | some r, some t => signedTest r t
    | _, _ => false
  | .unsignedRange q =>
    match q.range, unsignedGet q.position label with
    | some r, some t => unsignedTest r t
    | _, _ => false
  | .boolean q =>
    match q.range, booleanGet q.position label with
    | some r, some t => booleanTest r t
    | _, _ => false
  | .category q =>
    match q.range, categoryGet q.position label with
    | some r, some t => categoryTest r t
    | _, _ => false
  | .undefined q =>
    match q.range, undefinedGet q.position label with
    | some r, some t => undefinedTest r t
    | _, _ => false

/-- C1: for every successfully compiled question and every label, `test`
returns the kind-specific test result when both the compiled range and the
label's target field are present, returns true when the range is the
undefined sentinel (`none`) and the target is absent, and returns false in
the two mixed cases; the model is a total function, so `test` never
fails. -/
theorem question_test_kind_dispatch (patterns : List Str) (q : AllQuestion)
    (label : Label) (h : allQuestionParse patterns = Except.ok q) :
    (allQuestionRangeIsSome q = true → allQuestionTargetIsSome q label = true →
      allQuestionTest q label = kindTestResult q label) ∧
    (allQuestionRangeIsSome q = false → allQuestionTargetIsSome q label = false →
      allQuestionTest q label = true) ∧
    (allQuestionRangeIsSome q ≠ allQuestionTargetIsSome q label →
      allQuestionTest q label = false) := by
  cases q with
  | phone qq =>
    rcases hr : qq.range with _ | r <;>
      rcases ht : phoneGet qq.position label with _ | t <;>
      refine ⟨?_, ?_, ?_⟩ <;>
      simp [allQuestionTest, questionTest, allQuestionRangeIsSome,
        allQuestionTargetIsSome, kindTestResult, hr, ht]
  | signedRange qq =>
    rcases hr : qq.range with _ | r <;>
      rcases ht : signedGet qq.position label with _ | t <;>
      refine ⟨?_, ?_, ?_⟩ <;>
      simp [allQuestionTest, questionTest, allQuestionRangeIsSome,
        allQuestionTargetIsSome, kindTestResult, hr, ht]
  | unsignedRange qq =>
    rcases hr : qq.range with _ | r <;>
      rcases ht : unsignedGet qq.position label with _ | t <;>
      refine ⟨?_, ?_, ?_⟩ <;>
      simp [allQuestionTest, questionTest, allQuestionRangeIsSome,
        allQuestionTargetIsSome, kindTestResult, hr, ht]
  | boolean qq =>
    rcases hr : qq.range with _ | r <;>
      rcases ht : booleanGet qq.position label with _ | t <;>
      refine ⟨?_, ?_, ?_⟩ <;>
      simp [allQuestionTest, questionTest, allQuestionRangeIsSome,
        allQuestionTargetIsSome, kindTestResult, hr, ht]
  | category qq =>
    rcases hr : qq.range with _ | r <;>
      rcases ht : categoryGet qq.position label with _ | t <;>
      refine ⟨?_, ?_, ?_⟩ <;>
      simp [allQuestionTest, questionTest, allQuestionRangeIsSome,
        allQuestionTargetIsSome, kindTestResult, hr, ht]
  | undefined qq =>
    rcases hr : qq.range with _ | r <;>
      rcases ht : undefinedGet qq.position label with _ | t <;>
      refine ⟨?_, ?_, ?_⟩ <;>
      simp [allQuestionTest, questionTest, allQuestionRangeIsSome,
        allQuestionTargetIsSome, kindTestResult, hr, ht]

/-- C1 witness: the question `a^*` (phone P1, range present) evaluated on
the documentation label takes the kind-specific branch, and the question
`*-0/F:*` (boolean E5, range present) returns false on a label whose E
block is absent. -/
theorem question_test_kind_dispatch_witness :
    (allQuestionParse [("a^*").data] =
      Except.ok (AllQuestion.phone ⟨PhonePosition.p1, some [['a']]⟩) ∧
     allQuestionTest (AllQuestion.phone ⟨PhonePosition.p1, some [['a']]⟩) labelExample =
      kindTestResult (AllQuestion.phone ⟨PhonePosition.p1, some [['a']]⟩) labelExample) ∧
    allQuestionTest (AllQuestion.boolean ⟨BooleanPosition.e5, some false⟩) labelExample =
      false := by
  refine ⟨⟨by decide, ?_⟩, ?_⟩
  · exact (question_test_kind_dispatch [("a^*").data] _ labelExample (by decide)).1 rfl rfl
  · exact (question_test_kind_dispatch [("*-0/F:*").data] _ labelExample (by decide)).2.2
      (by decide)

/-- C2 counterexample: the bare unsigned wildcard `?` compiles to the
interval `[1, 10)`, not the claimed `[0, 10)` (so the value 0 never
matches), and the signed `-?` compiles to `[-9, 0)`, which excludes 0,
while the claimed `(-10, 0]` contains it. -/
theorem wildcard_range_counterexample :
    range_u8 ['?'] = Except.ok (1, 10) ∧
    range_u8 ['?'] ≠ Except.ok (0, 10) ∧
    unsignedTest (1, 10) 0 = false ∧
    range_i8 ['-', '?'] = Except.ok (-9, 0) ∧
    signedTest (-9, 0) 0 = false := by decide

/-- C2 (amended): the wildcard grammar of the numeric range parsers: the
bare `?` is `[1, 10)` unsigned but `[0, 10)` signed; `-?` is `[-9, 0)` and
`-??` is `[-99, -9)`; a trailing `?` after a parseable eight-bit number N
is `[N*10, (N+1)*10)` computed with eight-bit wraparound. -/
theorem wildcard_range_amended :
    (range_u8 ['?'] = Except.ok (1, 10)) ∧
    (range_i8 ['?'] = Except.ok (0, 10)) ∧
    (range_i8 ['-', '?'] = Except.ok (-9, 0)) ∧
    (range_i8 ['-', '?', '?'] = Except.ok (-99, -9)) ∧
    (∀ ds n, parseU8 ds = some n →
      range_u8 (ds ++ ['?']) =
        Except.ok (wrapU8 (n * 10), wrapU8 (wrapU8 (n + 1) * 10))) ∧
    (∀ ds i, parseI8 ds = some i →
      range_i8 (ds ++ ['?']) =
        Except.ok (wrapI8 (i * 10), wrapI8 (wrapI8 (i + 1) * 10))) := by
  refine ⟨rfl, rfl, rfl, rfl, ?_, ?_⟩
  · intro ds n h
    have hne : ds ≠ [] := by intro he; rw [he] at h; exact Option.noConfusion h
    rw [range_u8]
    rw [if_neg (fun hc : ds ++ ['?'] = ['?'] =>
      hne (by simpa using congrArg List.length hc))]
    rw [if_pos (show (ds ++ ['?']).getLast? = some ('?') by simp)]
    rw [List.dropLast_concat, h]
  · intro ds i h
    have hne : ds ≠ [] := by intro he; rw [he] at h; exact Option.noConfusion h
    have hd1 : ds ≠ ['-'] := by intro he; rw [he] at h; exact Option.noConfusion h
    have hd2 : ds ≠ ['-', '?'] := by intro he; rw [he] at h; exact Option.noConfusion h
    rw [range_i8]
    rw [if_neg (fun hc : ds ++ ['?'] = ['-', '?', '?'] => hd2 (by
      have h2 := congrArg List.dropLast hc
      rw [List.dropLast_concat] at h2
      exact h2.trans (show List.dropLast ['-', '?', '?'] = ['-', '?'] from rfl)))]
    rw [if_neg (fun hc : ds ++ ['?'] = ['-', '?'] => hd1 (by
      have h2 := congrArg List.dropLast hc
      rw [List.dropLast_concat] at h2
      exact h2.trans (show List.dropLast ['-', '?'] = ['-'] from rfl)))]
    rw [if_neg (fun hc : ds ++ ['?'] = ['?'] =>
      hne (by simpa using congrArg List.length hc))]
    rw [if_pos (show (ds ++ ['?']).getLast? = some ('?') by simp)]
    rw [List.dropLast_concat, h]

/-- C2 witness: `3?` compiles to `[30, 40)`; `99?` overflows eight-bit
arithmetic and compiles to `[-34, -24)`. -/
theorem wildcard_range_amended_witness :
    range_u8 (['3'] ++ ['?']) = Except.ok (30, 40) ∧
    range_i8 (['9', '9'] ++ ['?']) = Except.ok (-34, -24) := by
  constructor
  · exact (wildcard_range_amended.2.2.2.2.1 ['3'] 3 rfl).trans (by decide)
  · exact (wildcard_range_amended.2.2.2.2.2 ['9', '9'] 99 rfl).trans (by decide)

/-- C3: `BooleanPosition::range` maps `0` to false and `1` to true at
every Boolean position, with no polarity inversion at E5 or G5; since the
label parser does invert the stored pause-insertion flag, the question
`*-0/F:*` (serialized sub-field `0`) compiles to the range `false` and
rejects a label whose serialized E5 sub-field is `0` (stored as true),
while accepting one serialized as `1`. -/
theorem boolean_polarity_not_inverted :
    booleanRange [['0']] = Except.ok false ∧
    booleanRange [['1']] = Except.ok true ∧
    allQuestionParse [("*-0/F:*").data] =
      Except.ok (AllQuestion.boolean ⟨BooleanPosition.e5, some false⟩) ∧
    (labelFromString labelPauseZeroString).map
      (fun L => L.accent_phrase_prev.bind (fun a => a.is_pause_insertion)) =
      some (some true) ∧
    (labelFromString labelPauseZeroString).map
      (allQuestionTest (AllQuestion.boolean ⟨BooleanPosition.e5, some false⟩)) =
      some false ∧
    (labelFromString labelPauseOneString).map
      (allQuestionTest (AllQuestion.boolean ⟨BooleanPosition.e5, some false⟩)) =
      some true := by decide

/-- The gap test of `merge_ranges` along the tail of the sorted range
list: each next range must start no later than the running union ends. -/
def chainOkFrom {α : Type} [LinearOrder α] (e : α) : List (α × α) → Bool
  | [] => true
  | r :: rest => decide (r.1 ≤ e) && chainOkFrom (max e r.2) rest

/-- An error accumulator of the `merge_ranges` fold is final. -/
theorem foldl_mergeStep_err {α : Type} [LinearOrder α] (l : List (α × α)) :
    l.foldl mergeStep (Except.error QError.incontinuousRange) =
      Except.error QError.incontinuousRange := by
  induction l with
  | nil => rfl
  | cons r t ih => exact ih

/-- Under the gap test, the `merge_ranges` fold accumulates the running
minimum of starts and maximum of ends. -/
theorem foldl_mergeStep_ok {α : Type} [LinearOrder α] (rest : List (α × α)) :
    ∀ lo hi : α, chainOkFrom hi rest = true →
      rest.foldl mergeStep (Except.ok (lo, hi)) =
        Except.ok (rest.foldl (fun x r => min x r.1) lo,
          rest.foldl (fun x r => max x r.2) hi) := by
  induction rest with
  | nil => intro lo hi _; rfl
  | cons r t ih =>
    intro lo hi h
    simp only [chainOkFrom, Bool.and_eq_true, decide_eq_true_eq] at h
    obtain ⟨h1, h2⟩ := h
    rw [List.foldl_cons, List.foldl_cons, List.foldl_cons]
    have hstep : mergeStep (Except.ok (lo, hi)) r = Except.ok (min lo r.1, max hi r.2) := by
      simp only [mergeStep]
      rw [if_pos h1]
    rw [hstep]
    exact ih (min lo r.1) (max hi r.2) h2

/-- When the gap test fails, the `merge_ranges` fold returns the
discontinuity error. -/
theorem foldl_mergeStep_fail {α : Type} [LinearOrder α] (rest : List (α × α)) :
    ∀ lo hi : α, chainOkFrom hi rest = false →
      rest.foldl mergeStep (Except.ok (lo, hi)) =
        Except.error QError.incontinuousRange := by
  induction rest with
  | nil => intro lo hi h; exact absurd h (by simp [chainOkFrom])
  | cons r t ih =>
    intro lo hi h
    rw [List.foldl_cons]
    by_cases h1 : r.1 ≤ hi
    · have hstep : mergeStep (Except.ok (lo, hi)) r =
          Except.ok (min lo r.1, max hi r.2) := by
        simp only [mergeStep]
        rw [if_pos h1]
      rw [hstep]
      simp only [chainOkFrom] at h
      rw [decide_eq_true h1, Bool.true_and] at h
      exact ih (min lo r.1) (max hi r.2) h
    · have hstep : mergeStep (Except.ok (lo, hi)) r =
          Except.error QError.incontinuousRange := by
        simp only [mergeStep]
        rw [if_neg h1]
      rw [hstep]
      exact foldl_mergeStep_err t

/-- The folded minimum of starts is at most its seed. -/
theorem foldl_min_le_init {α : Type} [LinearOrder α] (l : List (α × α)) (a : α) :
    l.foldl (fun x r => min x r.1) a ≤ a := by
  induction l generalizing a with
  | nil => exact le_refl a
  | cons r t ih => exact le_trans (ih (min a r.1)) (min_le_left a r.1)

/-- The folded maximum of ends is at least its seed. -/
theorem foldl_max_init_le {α : Type} [LinearOrder α] (l : List (α × α)) (a : α) :
    a ≤ l.foldl (fun x r => max x r.2) a := by
  induction l generalizing a with
  | nil => exact le_refl a
  | cons r t ih => exact le_trans (le_max_left a r.2) (ih (max a r.2))

/-- The folded minimum of starts bounds every start of the list. -/
theorem foldl_min_le_mem {α : Type} [LinearOrder α] (l : List (α × α)) (a : α) :
    ∀ r ∈ l, l.foldl (fun x r => min x r.1) a ≤ r.1 := by
  induction l generalizing a with
  | nil => intro r hr; exact absurd hr (List.not_mem_nil r)
  | cons s t ih =>
    intro r hr
    rcases List.mem_cons.mp hr with h | h
    · rw [h]
      exact le_trans (foldl_min_le_init t (min a s.1)) (min_le_right a s.1)
    · exact ih (min a s.1) r h

/-- The folded maximum of ends bounds every end of the list. -/
theorem foldl_max_le_mem {α : Type} [LinearOrder α] (l : List (α × α)) (a : α) :
    ∀ r ∈ l, r.2 ≤ l.foldl (fun x r => max x r.2) a := by
  induction l generalizing a with
  | nil => intro r hr; exact absurd hr (List.not_mem_nil r)
  | cons s t ih =>
    intro r hr
    rcases List.mem_cons.mp hr with h | h
    · rw [h]
      exact le_trans (le_max_right a s.2) (foldl_max_init_le t (max a s.2))
    · exact ih (max a s.2) r h

/-- The folded minimum of starts is its seed or a start of the list. -/
theorem foldl_min_attained {α : Type} [LinearOrder α] (l : List (α × α)) (a : α) :
    l.foldl (fun x r => min x r.1) a = a ∨
      ∃ r ∈ l, l.foldl (fun x r => min x r.1) a = r.1 := by
  induction l generalizing a with
  | nil => exact Or.inl rfl
  | cons s t ih =>
    rcases ih (min a s.1) with h | ⟨r, hr, h⟩
    · rcases min_choice a s.1 with hm | hm
      · refine Or.inl ?_
        rw [List.foldl_cons]
        exact h.trans hm
      · refine Or.inr ⟨s, List.mem_cons_self s t, ?_⟩
        rw [List.foldl_cons]
        exact h.trans hm
    · refine Or.inr ⟨r, List.mem_cons_of_mem s hr, ?_⟩
      rw [List.foldl_cons]
      exact h

/-- The folded maximum of ends is its seed or an end of the list. -/
theorem foldl_max_attained {α : Type} [LinearOrder α] (l : List (α × α)) (a : α) :
    l.foldl (fun x r => max x r.2) a = a ∨
      ∃ r ∈ l, l.foldl (fun x r => max x r.2) a = r.2 := by
  induction l generalizing a with
  | nil => exact Or.inl rfl
  | cons s t ih =>
    rcases ih (max a s.2) with h | ⟨r, hr, h⟩
    · rcases max_choice a s.2 with hm | hm
      · refine Or.inl ?_
        rw [List.foldl_cons]
        exact h.trans hm
      · refine Or.inr ⟨s, List.mem_cons_self s t, ?_⟩
        rw [List.foldl_cons]
        exact h.trans hm
    · refine Or.inr ⟨r, List.mem_cons_of_mem s hr, ?_⟩
      rw [List.foldl_cons]
      exact h

/-- C4: `merge_ranges` of an empty list is the Empty error; otherwise,
writing the sorted ranges as `r0 :: rest`, when every next range starts no
later than the running union ends, the result is exactly the union
interval — the minimum of all starts paired with the maximum of all ends,
both bounding and attained among the input ranges — and when the gap test
fails the result is the IncontinuousRange error. -/
theorem merge_ranges_characterization {α : Type} [LinearOrder α] [DecidableEq α]
    (ranges : List (α × α)) :
    (ranges = [] → mergeRanges ranges = Except.error QError.empty) ∧
    ∀ r0 rest, ranges.mergeSort (fun a b => decide (a.1 ≤ b.1)) = r0 :: rest →
      (chainOkFrom r0.2 rest = true →
        mergeRanges ranges =
          Except.ok (rest.foldl (fun x r => min x r.1) r0.1,
            rest.foldl (fun x r => max x r.2) r0.2) ∧
        (∀ r ∈ ranges, rest.foldl (fun x r => min x r.1) r0.1 ≤ r.1 ∧
          r.2 ≤ rest.foldl (fun x r => max x r.2) r0.2) ∧
        (∃ r ∈ ranges, rest.foldl (fun x r => min x r.1) r0.1 = r.1) ∧
        (∃ r ∈ ranges, rest.foldl (fun x r => max x r.2) r0.2 = r.2)) ∧
      (chainOkFrom r0.2 rest = false →
        mergeRanges ranges = Except.error QError.incontinuousRange) := by
  constructor
  · intro h
    subst h
    rw [mergeRanges, List.mergeSort_nil]
    rfl
  · intro r0 rest hs
    have hmr : mergeRanges ranges =
        List.foldl mergeStep (Except.error QError.empty) (r0 :: rest) := by
      rw [mergeRanges, hs]
    have hmem : ∀ r, r ∈ ranges ↔ r ∈ r0 :: rest := by
      intro r
      rw [← hs]
      exact List.mem_mergeSort.symm
    constructor
    · intro hchain
      refine ⟨?_, ?_, ?_, ?_⟩
      · rw [hmr, List.foldl_cons]
        exact foldl_mergeStep_ok rest r0.1 r0.2 hchain
      · intro r hr
        rcases List.mem_cons.mp ((hmem r).mp hr) with h | h
        · rw [h]
          exact ⟨foldl_min_le_init rest r0.1, foldl_max_init_le rest r0.2⟩
        · exact ⟨foldl_min_le_mem rest r0.1 r h, foldl_max_le_mem rest r0.2 r h⟩
      · rcases foldl_min_attained rest r0.1 with h | ⟨r, hr, h⟩
        · exact ⟨r0, (hmem r0).mpr (List.mem_cons_self r0 rest), h⟩
        · exact ⟨r, (hmem r).mpr (List.mem_cons_of_mem r0 hr), h⟩
      · rcases foldl_max_attained rest r0.2 with h | ⟨r, hr, h⟩
        · exact ⟨r0, (hmem r0).mpr (List.mem_cons_self r0 rest), h⟩
        · exact ⟨r, (hmem r).mpr (List.mem_cons_of_mem r0 hr), h⟩
    · intro hchain
      rw [hmr, List.foldl_cons]
      exact foldl_mergeStep_fail rest r0.1 r0.2 hchain

/-- C4 witness: `[0,2)` and `[2,3)` merge to `[0,3)`; `[0,1)` and `[5,6)`
leave a gap and fail; the empty list is the Empty error. -/
theorem merge_ranges_characterization_witness :
    mergeRanges [((0 : Int), 2), ((2 : Int), 3)] = Except.ok (0, 3) ∧
    mergeRanges [((0 : Int), 1), ((5 : Int), 6)] =
      Except.error QError.incontinuousRange ∧
    mergeRanges ([] : List (Int × Int)) = Except.error QError.empty := by
  have hs1 : ([((0 : Int), 2), ((2 : Int), 3)] : List (Int × Int)).mergeSort
      (fun a b => decide (a.1 ≤ b.1)) = ((0 : Int), 2) :: [((2 : Int), 3)] :=
    List.mergeSort_of_sorted (by decide)
  have hs2 : ([((0 : Int), 1), ((5 : Int), 6)] : List (Int × Int)).mergeSort
      (fun a b => decide (a.1 ≤ b.1)) = ((0 : Int), 1) :: [((5 : Int), 6)] :=
    List.mergeSort_of_sorted (by decide)
  refine ⟨?_, ?_, ?_⟩
  · exact ((((merge_ranges_characterization [((0 : Int), 2), ((2 : Int), 3)]).2
      ((0 : Int), 2) [((2 : Int), 3)] hs1).1 (by decide)).1).trans (by decide)
  · exact ((merge_ranges_characterization [((0 : Int), 1), ((5 : Int), 6)]).2
      ((0 : Int), 1) [((5 : Int), 6)] hs2).2 (by decide)
  · exact (merge_ranges_characterization ([] : List (Int × Int))).1 rfl

/-- C5 counterexample: the pattern `*_0_*` parses successfully to an
Undefined-kind question (G4) with a present unit range, and its `test`
returns false on the documentation label, not true. -/
theorem undefined_test_counterexample :
    allQuestionParse [['*', '_', '0', '_', '*']] =
      Except.ok (AllQuestion.undefined ⟨UndefinedPotision.g4, some ()⟩) ∧
    allQuestionTest (AllQuestion.undefined ⟨UndefinedPotision.g4, some ()⟩)
      labelExample = false := by decide

/-- C5 (amended): a parsed question targeting an Undefined-kind position
returns true from `test` for every label exactly when its core text was
the `xx` sentinel (compiled range `none`); with a present range it returns
false for every label, because the target getter is constantly absent. -/
theorem undefined_test_amended (patterns : List Str)
    (q : Question UndefinedPotision Unit) (label : Label)
    (_h : allQuestionParse patterns = Except.ok (AllQuestion.undefined q)) :
    (allQuestionTest (AllQuestion.undefined q) label = true ↔ q.range = none) := by
  rcases hr : q.range with _ | r <;>
    simp [allQuestionTest, questionTest, undefinedGet, hr]

/-- C5 witness: the pattern `*_xx_*` compiles to the sentinel question,
whose `test` returns true on the documentation label. -/
theorem undefined_test_amended_witness :
    allQuestionParse [['*', '_', 'x', 'x', '_', '*']] =
      Except.ok (AllQuestion.undefined ⟨UndefinedPotision.g4, none⟩) ∧
    allQuestionTest (AllQuestion.undefined ⟨UndefinedPotision.g4, none⟩)
      labelExample = true := by
  have h : allQuestionParse [['*', '_', 'x', 'x', '_', '*']] =
      Except.ok (AllQuestion.undefined ⟨UndefinedPotision.g4, none⟩) := by decide
  exact ⟨h, (undefined_test_amended _ _ labelExample h).mpr rfl⟩

/-- C6 counterexample: compiling the core text `1` at the Undefined
position E4 succeeds (with the unit range), and the full pattern `*_1-*`
parses without error. -/
theorem undefined_range_counterexample :
    questionNew undefinedRange UndefinedPotision.e4 [['1']] =
      Except.ok ⟨UndefinedPotision.e4, some ()⟩ ∧
    allQuestionParse [['*', '_', '1', '-', '*']] =
      Except.ok (AllQuestion.undefined ⟨UndefinedPotision.e4, some ()⟩) := by decide

/-- C6 (amended): `UndefinedPotision::range` never fails, so compiling any
core-text list other than the single `xx` sentinel at an Undefined-kind
position succeeds and carries the information-free unit range. -/
theorem undefined_range_amended (pos : UndefinedPotision) (ranges : List Str)
    (h : ranges ≠ [xx]) :
    questionNew undefinedRange pos ranges = Except.ok ⟨pos, some ()⟩ := by
  rw [questionNew, if_neg h]
  rfl

/-- C6 witness: the core text `1` at F4 compiles successfully. -/
theorem undefined_range_amended_witness :
    ([['1']] : List Str) ≠ [xx] ∧
    questionNew undefinedRange UndefinedPotision.f4 [['1']] =
      Except.ok ⟨UndefinedPotision.f4, some ()⟩ :=
  ⟨by decide, undefined_range_amended UndefinedPotision.f4 [['1']] (by decide)⟩

/-- An `Except.ok` value feeds the rest of a do-chain directly. -/
theorem okBind {ε α β : Type} (a : α) (f : α → Except ε β) :
    (Except.ok a >>= f : Except ε β) = f a := rfl

/-- C7 counterexample: the pattern `/A:-3+` resolves to the signed A1
position and lacks its trailing asterisk, yet `estimate_position` fails
with MissingPrefixAsterisk, not the claimed MissingSuffixAsterisk: the
prefix check runs first whenever both asterisks are missing. -/
theorem star_check_counterexample :
    trim_asterisk (("/A:-3+").data) = ((("/A:-3+").data), (false, false)) ∧
    match_position (("/A:-3+").data) (some 2) (some 5) (false, false) =
      Except.ok (AllPosition.signedRange SignedRangePosition.a1) ∧
    AllPosition.signedRange SignedRangePosition.a1 ≠
      AllPosition.unsignedRange UnsignedRangePosition.k3 ∧
    estimate_position (("/A:-3+").data) =
      Except.error QPositionError.missingPrefixAsterisk ∧
    estimate_position (("/A:-3+").data) ≠
      Except.error QPositionError.missingSuffixAsterisk := by decide

/-- C7 (amended): for a pattern whose resolved position is not the first
phoneme field, a missing leading asterisk fails with
MissingPrefixAsterisk; a missing trailing asterisk fails with
MissingSuffixAsterisk only once the prefix check passes (the position is
the first field or the leading asterisk is present) and the position is
not the terminal field. -/
theorem star_check_amended (input pattern : Str) (stars : Bool × Bool)
    (pre suf : Option Nat) (pos : AllPosition)
    (h1 : trim_asterisk input = (pattern, stars))
    (h2 : find_delim_marks pattern = (pre, suf))
    (h3 : match_position pattern pre suf stars = Except.ok pos) :
    (pos ≠ AllPosition.phone PhonePosition.p1 → stars.1 = false →
      estimate_position input = Except.error QPositionError.missingPrefixAsterisk) ∧
    ((pos = AllPosition.phone PhonePosition.p1 ∨ stars.1 = true) →
      pos ≠ AllPosition.unsignedRange UnsignedRangePosition.k3 → stars.2 = false →
      estimate_position input = Except.error QPositionError.missingSuffixAsterisk) := by
  have hbase : estimate_position input =
      (if pos ≠ AllPosition.phone PhonePosition.p1 ∧ stars.1 = false then
        Except.error QPositionError.missingPrefixAsterisk
      else if pos ≠ AllPosition.unsignedRange UnsignedRangePosition.k3 ∧
          stars.2 = false then
        Except.error QPositionError.missingSuffixAsterisk
      else
        match generate_range pos pattern pre suf with
        | .error e => .error e
        | .ok (a, b) =>
          if b ≤ a then .error .emptyRange
          else .ok (pos, (pattern.take b).drop a)) := by
    rw [estimate_position, h1]
    dsimp only
    rw [h2]
    dsimp only
    rw [h3, okBind]
  constructor
  · intro hp hst
    rw [hbase, if_pos ⟨hp, hst⟩]
  · intro hor hk hst
    have hneg : ¬(pos ≠ AllPosition.phone PhonePosition.p1 ∧ stars.1 = false) := by
      rcases hor with h | h
      · exact fun hc => hc.1 h
      · exact fun hc => Bool.noConfusion (h.symm.trans hc.2)
    rw [hbase, if_neg hneg, if_pos ⟨hk, hst⟩]

/-- C7 witness: `/B:17-*` (category B1, no leading asterisk) fails with
MissingPrefixAsterisk; `a^` (phone P1, no trailing asterisk) passes the
prefix check and fails with MissingSuffixAsterisk. -/
theorem star_check_amended_witness :
    estimate_position (("/B:17-*").data) =
      Except.error QPositionError.missingPrefixAsterisk ∧
    estimate_position ['a', '^'] =
      Except.error QPositionError.missingSuffixAsterisk := by
  constructor
  · exact (star_check_amended (("/B:17-*").data) (("/B:17-").data) (false, true)
      (some 2) (some 5) (AllPosition.category CategoryPosition.b1)
      rfl rfl rfl).1 (by decide) rfl
  · exact (star_check_amended ['a', '^'] ['a', '^'] (false, false)
      none (some 1) (AllPosition.phone PhonePosition.p1)
      rfl rfl rfl).2 (Or.inl rfl) (by decide) rfl

/-- C8 counterexample: the combination table entry for the pair
`('^', '-')` resolves to phone P2, but the single-byte forward table
already resolves `'^'` to phone P2, so the tables do overlap. -/
theorem combination_overlap_counterexample :
    combination_match ('^') ('-') = some (AllPosition.phone PhonePosition.p2) ∧
    single_forward ('^') = some (AllPosition.phone PhonePosition.p2) ∧
    single_forward ('^') ≠ none := by decide

/-- A successful `List.lookup` finds a pair of the list. -/
theorem lookup_mem {α β : Type} [BEq α] [LawfulBEq α] {l : List (α × β)} {k : α}
    {v : β} (h : List.lookup k l = some v) : (k, v) ∈ l := by
  induction l with
  | nil => exact Option.noConfusion h
  | cons a t ih =>
    obtain ⟨k2, v2⟩ := a
    simp only [List.lookup] at h
    cases hbeq : (k == k2) with
    | true =>
      rw [hbeq] at h
      have hk : k = k2 := eq_of_beq hbeq
      have hv : v2 = v := Option.some.inj h
      rw [hk, ← hv]
      exact List.mem_cons_self (k2, v2) t
    | false =>
      rw [hbeq] at h
      exact List.mem_cons_of_mem (k2, v2) (ih h)

/-- C8 (amended): the combination table does overlap the single-byte
tables, but consistently: whenever `combination_match` resolves a pair
`(p, s)`, any resolution of `single_forward p` or of `single_reverse s`
is the same position. -/
theorem combination_overlap_amended (p s : Char) (pos : AllPosition)
    (h : combination_match p s = some pos) :
    (single_forward p = none ∨ single_forward p = some pos) ∧
    (single_reverse s = none ∨ single_reverse s = some pos) := by
  have hmem : ((p, s), pos) ∈ combinationTable := lookup_mem h
  have hall : ∀ e ∈ combinationTable,
      (single_forward e.1.1 = none ∨ single_forward e.1.1 = some e.2) ∧
      (single_reverse e.1.2 = none ∨ single_reverse e.1.2 = some e.2) := by decide
  exact hall ((p, s), pos) hmem

/-- C8 witness: at the pair `('-', '+')` (phone P3) neither single-byte
table resolves, as the consistency statement allows. -/
theorem combination_overlap_amended_witness :
    combination_match ('-') ('+') = some (AllPosition.phone PhonePosition.p3) ∧
    (single_forward ('-') = none ∨
      single_forward ('-') = some (AllPosition.phone PhonePosition.p3)) ∧
    (single_reverse ('+') = none ∨
      single_reverse ('+') = some (AllPosition.phone PhonePosition.p3)) :=
  ⟨rfl, combination_overlap_amended ('-') ('+') (AllPosition.phone PhonePosition.p3) rfl⟩

/-- C9: `NoOpFallback::parse` never returns an error, and whenever the
wrapped structured parse fails it returns the no-op sentinel, whose `test`
is false for every label. -/
theorem noop_fallback_total (T : Type) (parseT : List Str → Except QError T)
    (testT : T → Label → Bool) (patterns : List Str) :
    (∃ r, noOpParse parseT patterns = Except.ok r) ∧
    (∀ e, parseT patterns = Except.error e →
      noOpParse parseT patterns = Except.ok NoOpFallback.noOp ∧
      ∀ label, noOpTest testT NoOpFallback.noOp label = false) := by
  constructor
  · rcases h : parseT patterns with e | t
    · exact ⟨NoOpFallback.noOp, by rw [noOpParse, h]⟩
    · exact ⟨NoOpFallback.ok t, by rw [noOpParse, h]⟩
  · intro e he
    refine ⟨by rw [noOpParse, he], fun _ => rfl⟩

/-- C9 witness: the pattern `INVALID?*` fails the structured parse with
NoMatchingPosition, and the fallback wraps it into the no-op sentinel,
which tests false on the documentation label. -/
theorem noop_fallback_total_witness :
    allQuestionParse [("INVALID?*").data] =
      Except.error (QError.invalidPosition QPositionError.noMatchingPosition) ∧
    noOpParse allQuestionParse [("INVALID?*").data] =
      Except.ok NoOpFallback.noOp ∧
    noOpTest allQuestionTest NoOpFallback.noOp labelExample = false := by
  have h : allQuestionParse [("INVALID?*").data] =
      Except.error (QError.invalidPosition QPositionError.noMatchingPosition) := by
    decide
  have h2 := (noop_fallback_total AllQuestion allQuestionParse allQuestionTest
    [("INVALID?*").data]).2 _ h
  exact ⟨h, h2.1, h2.2 labelExample⟩

/-- C10: serializing then reparsing is the identity on parsed labels: for
every string that parses successfully into a label, serializing that label
and parsing again yields the same label. -/
theorem label_roundtrip (s : String) (L : Label)
    (h : labelFromString s = some L) :
    labelFromString (labelToString L) = some L :=
  labelParse_serLabel h

/-- C10 witness: the documentation example label survives the round
trip. -/
theorem label_roundtrip_witness :
    labelFromString labelExampleString = some labelExample ∧
    labelFromString (labelToString labelExample) = some labelExample :=
  ⟨rfl, label_roundtrip labelExampleString labelExample rfl⟩
